import Mathlib

/-!
Verification of the maze-ai-navigator repository's algorithmic core.

The development shallowly embeds the JavaScript sources:
* `MazeUtils.isValidCoordinate` from `src/js/utils.js`;
* the `RecursiveBacktrackingAlgorithm` class from the recursive-backtracking
  module (shipped inside `src/index.html`): `initialize`, `step`,
  `getUnvisitedNeighbors`, `generate`'s progress-callback loop;
* the frozen configuration object from `src/js/config.js` and
  `MazeScene3D.fitCameraToMaze` from `src/js/3d/scene.js`;
* the `EventBus` class (`on`/`off`/`emit`) from the event-bus module.

Machine numbers are embedded as `Int`/`Nat`/`Rat` (all the arithmetic the
algorithms perform is exact at these sizes).  `Math.random()`-driven choices
are embedded as an explicit list of `Nat` choices, the choice `r` selecting
index `r % neighbors.length` exactly as `Math.floor(Math.random()*len)`
ranges over `0..len-1`.
-/

namespace MazeNav

/-- One grid cell, with the four state flags used by the code
(`wall`, `visited`, `current`, `path`). -/
structure Cell where
  wall : Bool
  visited : Bool
  current : Bool
  path : Bool
deriving DecidableEq, Repr

/-- Modelled from the spec: the grid model of §4.1 (the grid class itself,
`src/js/maze/generator.js` / renderer grid, is not among the provided source
files).  A grid holds `width`, `height` and a mapping from coordinates to
cells; `set` merges the partial state into the cell.  Every `setCell` call the
recursive-backtracking algorithm makes supplies all four fields, so the merge
is embedded as full replacement at the written coordinate. -/
structure Maze where
  width : Int
  height : Int
  cells : Int → Int → Cell

/-- `MazeUtils.isValidCoordinate(x, y, width, height)` from `src/js/utils.js`:
`x >= 0 && x < width && y >= 0 && y < height`. -/
def MazeUtils.isValidCoordinate (x y width height : Int) : Bool :=
  decide (0 ≤ x) && decide (x < width) && decide (0 ≤ y) && decide (y < height)

/-- `maze.getCell(x, y)`. -/
def Maze.getCell (m : Maze) (x y : Int) : Cell := m.cells x y

/-- `maze.setCell(x, y, state)`: replace the cell at `(x, y)`
(see `Maze` for why replacement embeds the merge faithfully). -/
def Maze.setCell (m : Maze) (x y : Int) (c : Cell) : Maze :=
  { m with cells := fun a b => if a = x ∧ b = y then c else m.cells a b }

/-- Modelled from the spec: a freshly created grid for a generation run is a
grid of walls (§2 "driver initializes grid", §4.2 / `config.js`: the algorithm
"carves paths through a grid of walls"); no cell is visited, current or path. -/
def freshMaze (w h : Int) : Maze :=
  ⟨w, h, fun _ _ => ⟨true, false, false, false⟩⟩

/-- `window.MazeConfig.algorithms.recursive.stepSize` from `src/js/config.js`. -/
def recursiveStepSize : Int := 2

/-- The mutable state of a `RecursiveBacktrackingAlgorithm` instance:
the maze it owns, the backtracking stack (JS array end = list head),
the current cell, the completion flag and the step counter. -/
structure RBState where
  maze : Maze
  stack : List (Int × Int)
  current : Int × Int
  isComplete : Bool
  stepCount : Nat

/-- The record returned by `step()`.  The early return taken once the
algorithm is complete carries only `complete` and `current`; the absent
`step`/`stackSize` fields are embedded as `none`. -/
structure StepResult where
  complete : Bool
  current : Int × Int
  step : Option Nat
  stackSize : Option Nat
deriving DecidableEq, Repr

/-- `getUnvisitedNeighbors(x, y)`: the four cardinal candidates at distance
`stepSize`, keeping those that are in bounds and unvisited. -/
def RBState.getUnvisitedNeighbors (s : RBState) (x y : Int) : List (Int × Int) :=
  let st := recursiveStepSize
  let directions : List (Int × Int) :=
    [(x, y - st), (x + st, y), (x, y + st), (x - st, y)]
  directions.filter fun d =>
    MazeUtils.isValidCoordinate d.1 d.2 s.maze.width s.maze.height
      && !((s.maze.getCell d.1 d.2).visited)

/-- `initialize()`: start at `(1, 1)`, mark it visited and current,
empty the stack, reset the flags and counter. -/
def RBState.initialize (m : Maze) : RBState :=
  { maze := m.setCell 1 1 ⟨false, true, true, false⟩
    stack := []
    current := (1, 1)
    isComplete := false
    stepCount := 0 }

/-- The carving branch of `step()` (a random unvisited neighbor exists):
clear the wall cell strictly between current and `next`, mark `next` visited,
push the current cell, clear its marker, move to `next` and mark it current. -/
def RBState.advance (s : RBState) (next : Int × Int) : RBState :=
  let cx := s.current.1
  let cy := s.current.2
  let wallX := cx + (next.1 - cx) / 2
  let wallY := cy + (next.2 - cy) / 2
  let m1 := s.maze.setCell wallX wallY ⟨false, true, false, true⟩
  let m2 := m1.setCell next.1 next.2 ⟨false, true, false, false⟩
  let m3 := m2.setCell cx cy ⟨false, true, false, true⟩
  let m4 := m3.setCell next.1 next.2 ⟨false, true, true, false⟩
  { maze := m4, stack := s.current :: s.stack, current := next,
    isComplete := false, stepCount := s.stepCount + 1 }

/-- The backtracking branch of `step()` (no unvisited neighbor, non-empty
stack): mark the current cell as path, pop the stack into `current`. -/
def RBState.backtrack (s : RBState) (top : Int × Int) (rest : List (Int × Int)) :
    RBState :=
  { maze := (s.maze.setCell s.current.1 s.current.2 ⟨false, true, false, true⟩).setCell
      top.1 top.2 ⟨false, true, true, true⟩,
    stack := rest, current := top, isComplete := false,
    stepCount := s.stepCount + 1 }

/-- The terminal branch of `step()` (no unvisited neighbor, empty stack):
mark the current cell as path and set `isComplete`. -/
def RBState.finish (s : RBState) : RBState :=
  { maze := s.maze.setCell s.current.1 s.current.2 ⟨false, true, false, true⟩,
    stack := [], current := s.current, isComplete := true,
    stepCount := s.stepCount + 1 }

/-- `step()`, with the random neighbor pick supplied as `r` (the chosen index
is `r % neighbors.length`).  Returns the step record and the successor state. -/
def RBState.step (s : RBState) (r : Nat) : StepResult × RBState :=
  if s.isComplete then
    ({ complete := true, current := s.current, step := none, stackSize := none }, s)
  else
    let neighbors := s.getUnvisitedNeighbors s.current.1 s.current.2
    let s' :=
      if 0 < neighbors.length then
        s.advance (neighbors.getD (r % neighbors.length) (0, 0))
      else
        match s.stack with
        | top :: rest => s.backtrack top rest
        | [] => s.finish
    ({ complete := s'.isComplete, current := s'.current,
       step := some s'.stepCount, stackSize := some s'.stack.length }, s')

/-- Iterate `step()` over a list of random choices. -/
def RBState.run (s : RBState) (cs : List Nat) : RBState :=
  cs.foldl (fun t r => (t.step r).2) s

/-- A full run's starting state: fresh `w × h` grid, then `initialize()`. -/
def initState (w h : Int) : RBState := RBState.initialize (freshMaze w h)

/-! ### The passage subgraph of a maze and its metrics -/

/-- `(x, y)` lies inside the grid. -/
def Maze.inBounds (m : Maze) (p : Int × Int) : Prop :=
  0 ≤ p.1 ∧ p.1 < m.width ∧ 0 ≤ p.2 ∧ p.2 < m.height

instance (m : Maze) (p : Int × Int) : Decidable (m.inBounds p) := by
  unfold Maze.inBounds; infer_instance

/-- A passage cell: in bounds and not a wall. -/
def Maze.isPassage (m : Maze) (p : Int × Int) : Prop :=
  m.inBounds p ∧ (m.cells p.1 p.2).wall = false

instance (m : Maze) (p : Int × Int) : Decidable (m.isPassage p) := by
  unfold Maze.isPassage; infer_instance

/-- A visited cell: in bounds and flagged visited. -/
def Maze.isVisited (m : Maze) (p : Int × Int) : Prop :=
  m.inBounds p ∧ (m.cells p.1 p.2).visited = true

instance (m : Maze) (p : Int × Int) : Decidable (m.isVisited p) := by
  unfold Maze.isVisited; infer_instance

/-- Two grid coordinates at unit (orthogonal) distance. -/
def unitAdj (p q : Int × Int) : Prop :=
  (p.1 = q.1 ∧ (q.2 = p.2 + 1 ∨ p.2 = q.2 + 1)) ∨
  (p.2 = q.2 ∧ (q.1 = p.1 + 1 ∨ p.1 = q.1 + 1))

instance (p q : Int × Int) : Decidable (unitAdj p q) := by
  unfold unitAdj; infer_instance

/-- Adjacency of the passage subgraph: two passage cells at unit distance. -/
def Maze.passageAdj (m : Maze) (p q : Int × Int) : Prop :=
  m.isPassage p ∧ m.isPassage q ∧ unitAdj p q

/-- The passage subgraph of the maze, with grid coordinates as vertices. -/
def Maze.passageGraph (m : Maze) : SimpleGraph (Int × Int) where
  Adj := fun p q => m.passageAdj p q
  symm := by
    intro p q h
    obtain ⟨hp, hq, hadj⟩ := h
    refine ⟨hq, hp, ?_⟩
    unfold unitAdj at hadj ⊢
    tauto
  loopless := by
    intro p h
    obtain ⟨-, -, hadj⟩ := h
    unfold unitAdj at hadj
    omega

/-- Flood-fill reachability inside the passage subgraph. -/
def Maze.reaches (m : Maze) (p q : Int × Int) : Prop :=
  Relation.ReflTransGen m.passageAdj p q

/-- All grid coordinates, as a finite set. -/
def Maze.domain (m : Maze) : Finset (Int × Int) :=
  Finset.Icc (0 : Int) (m.width - 1) ×ˢ Finset.Icc (0 : Int) (m.height - 1)

/-- Both coordinates odd: a potential passage cell of the carving lattice. -/
def cellPos (p : Int × Int) : Prop := p.1 % 2 = 1 ∧ p.2 % 2 = 1

instance (p : Int × Int) : Decidable (cellPos p) := by
  unfold cellPos; infer_instance

/-- Exactly one coordinate odd: a potential wall cell between two lattice
cells (an edge slot of the carving lattice). -/
def bridgePos (p : Int × Int) : Prop :=
  (p.1 % 2 = 0 ∧ p.2 % 2 = 1) ∨ (p.1 % 2 = 1 ∧ p.2 % 2 = 0)

instance (p : Int × Int) : Decidable (bridgePos p) := by
  unfold bridgePos; infer_instance

/-- Number of visited cells of the grid. -/
def Maze.visitedCount (m : Maze) : Nat :=
  (m.domain.filter fun p => (m.cells p.1 p.2).visited = true).card

/-- Number of visited lattice cells (both coordinates odd). -/
def Maze.visitedCellCount (m : Maze) : Nat :=
  (m.domain.filter fun p => cellPos p ∧ (m.cells p.1 p.2).visited = true).card

/-- Number of cleared wall cells between lattice cells. -/
def Maze.clearedBridgeCount (m : Maze) : Nat :=
  (m.domain.filter fun p => bridgePos p ∧ (m.cells p.1 p.2).wall = false).card

/-- Number of edges of the passage subgraph: each unordered unit-adjacent
pair of passage cells, counted once (at its west/north endpoint). -/
def Maze.edgeCount (m : Maze) : Nat :=
  ∑ p ∈ m.domain,
    ((if m.isPassage p ∧ m.isPassage (p.1 + 1, p.2) then 1 else 0) +
     (if m.isPassage p ∧ m.isPassage (p.1, p.2 + 1) then 1 else 0))

/-! ### The `generate()` progress-callback loop -/

/-- One invocation of `progressCallback(percentage, stepCount, result)`
during `generate()`. -/
structure ProgressEvent where
  percentage : Rat
  stepCount : Nat
  result : StepResult
deriving DecidableEq, Repr

/-- A fixed default event, used only as the `List.getD` fallback. -/
def defaultEvent : ProgressEvent :=
  { percentage := 0, stepCount := 0
    result := { complete := false, current := (0, 0), step := none, stackSize := none } }

/-- `totalCells = Math.floor((width * height) / 4)` from `generate()`. -/
def totalCellsTarget (m : Maze) : Int := m.width * m.height / 4

/-- The sequence of progress-callback invocations performed by the
`while (!this.isComplete)` loop of `generate()`: each iteration runs one
`step()`, increments `processedCells`, and reports
`(processedCells / totalCells) * 100` together with `this.stepCount` and the
step record.  The loop is driven by the list of random choices; it stops when
the algorithm completes (or when the supplied choices run out). -/
def genTrace (s : RBState) (cs : List Nat) (processedCells : Nat) :
    List ProgressEvent :=
  match cs with
  | [] => []
  | r :: rest =>
    if s.isComplete then []
    else
      let res := s.step r
      let processed := processedCells + 1
      { percentage := ((processed : Rat) / (totalCellsTarget s.maze : Rat)) * 100
        stepCount := res.2.stepCount
        result := res.1 } :: genTrace res.2 rest processed

/-! ### Configuration and the 3D scene's camera fit
(`src/js/config.js`, `src/js/3d/scene.js`) -/

/-- `window.MazeConfig.threeD` from `src/js/config.js` (the numeric values
are exact decimals, embedded as rationals). -/
structure ThreeDSettings where
  wallHeight : Rat
  cellSize : Rat
  playerHeight : Rat
  cameraDistance : Rat
  lightIntensity : Rat
  enableShadows : Bool
  fogDensity : Rat
  renderDistance : Rat
deriving DecidableEq, Repr

/-- The values assigned to `window.MazeConfig.threeD` in `src/js/config.js`. -/
def defaultThreeD : ThreeDSettings :=
  { wallHeight := 3
    cellSize := 4
    playerHeight := 9 / 5
    cameraDistance := 50
    lightIntensity := 4 / 5
    enableShadows := false
    fogDensity := 1 / 100
    renderDistance := 100 }

/-- The slice of `MazeScene3D` state that `fitCameraToMaze` touches:
`this.maze`, whether `this.camera` exists, and `this.config` — which is the
very object `window.MazeConfig.threeD` (`this.config = window.MazeConfig.threeD`
in the constructor; `Object.freeze(window.MazeConfig)` freezes only the top
level, so this nested object remains writable). -/
structure SceneState where
  maze : Option Maze
  hasCamera : Bool
  config : ThreeDSettings

/-- `MazeScene3D.fitCameraToMaze()` from `src/js/3d/scene.js`:
if maze and camera exist, write
`maxDimension * cellSize * 0.8` into `this.config.cameraDistance`. -/
def fitCameraToMaze (sc : SceneState) : SceneState :=
  match sc.maze with
  | none => sc
  | some mz =>
    if sc.hasCamera then
      let maxDimension : Int := max mz.width mz.height
      let distance : Rat := (maxDimension : Rat) * sc.config.cellSize * (4 / 5)
      { sc with config := { sc.config with cameraDistance := distance } }
    else sc

/-! ### The event bus (`EventBus` class) -/

/-- One subscribed listener.  Its callback is embedded as a pure function
from the emitted data to (a) the unsubscriptions (`off` calls, keyed by event
name and listener id) it performs against the bus while running and (b) an
optional thrown exception. -/
structure BusListener (α ε : Type) where
  id : Nat
  run : α → List (String × Nat) × Option ε

/-- The `this.events` table of the bus: event name to listener list,
in subscription order. -/
structure EventBusM (α ε : Type) where
  events : List (String × List (BusListener α ε))

/-- `on(event, callback)`: append a listener to the event's list
(creating the entry if absent). -/
def EventBusM.on (bus : EventBusM α ε) (event : String) (l : BusListener α ε) :
    EventBusM α ε :=
  if (bus.events.lookup event).isSome then
    ⟨bus.events.map fun p => if p.1 = event then (p.1, p.2 ++ [l]) else p⟩
  else
    ⟨bus.events ++ [(event, [l])]⟩

/-- `off(event, callback)`: remove the listener from the event's list,
deleting the entry when the list becomes empty. -/
def EventBusM.off (bus : EventBusM α ε) (event : String) (lid : Nat) :
    EventBusM α ε :=
  ⟨(bus.events.map fun p =>
      if p.1 = event then (p.1, p.2.filter fun l => l.id != lid) else p).filter
    fun p => !(decide (p.1 = event) && p.2.isEmpty)⟩

/-- Apply the `off` calls a callback performed, in order. -/
def EventBusM.applyOps (bus : EventBusM α ε) (ops : List (String × Nat)) :
    EventBusM α ε :=
  ops.foldl (fun b op => b.off op.1 op.2) bus

/-- `emit(event, data)`: if the event has no entry, return; otherwise iterate
over a copy of the listener list taken up front, invoking each callback inside
`try`/`catch` (a thrown exception is logged and the iteration continues).
The result records the bus after all callbacks' `off` effects and the
invocation log: each invoked listener's id with the exception it threw,
if any.  `emit` itself always returns normally. -/
def EventBusM.emit (bus : EventBusM α ε) (event : String) (data : α) :
    EventBusM α ε × List (Nat × Option ε) :=
  match bus.events.lookup event with
  | none => (bus, [])
  | some listeners =>
    listeners.foldl
      (fun acc l =>
        let r := l.run data
        (acc.1.applyOps r.1, acc.2 ++ [(l.id, r.2)]))
      (bus, [])

/-! ### Run invariants of the recursive-backtracking algorithm -/

/-- The lightweight marker invariant: the `current` flags of the grid point
exactly at `s.current` while the algorithm is active (and nowhere once it is
complete), and `s.current` and all stacked cells are in bounds. -/
structure CurInv (s : RBState) : Prop where
  curMark : ∀ x y : Int,
    (s.maze.cells x y).current = true ↔
      (s.isComplete = false ∧ x = s.current.1 ∧ y = s.current.2)
  curIn : s.maze.inBounds s.current
  stackIn : ∀ q ∈ s.stack, s.maze.inBounds q

/-- The structural invariant of a recursive-backtracking run.  It ties the
cell flags to the carving lattice: visited and non-wall coincide, cells with
both coordinates even are never carved, every cleared wall cell joins two
visited in-bounds lattice cells, every visited cell is flood-fill reachable
from the start, the cleared-wall count trails the visited-lattice-cell count
by one, and the passage subgraph is acyclic. -/
structure RBInv (s : RBState) : Prop where
  visWall : ∀ x y : Int, (s.maze.cells x y).visited = !(s.maze.cells x y).wall
  pillar : ∀ x y : Int, x % 2 = 0 → y % 2 = 0 → (s.maze.cells x y).wall = true
  curOdd : s.current.1 % 2 = 1 ∧ s.current.2 % 2 = 1
  curIn : s.maze.inBounds s.current
  curVis : (s.maze.cells s.current.1 s.current.2).visited = true
  stackOdd : ∀ q ∈ s.stack, q.1 % 2 = 1 ∧ q.2 % 2 = 1
  stackIn : ∀ q ∈ s.stack, s.maze.inBounds q
  stackVis : ∀ q ∈ s.stack, (s.maze.cells q.1 q.2).visited = true
  hflank : ∀ x y : Int, x % 2 = 0 → y % 2 = 1 → (s.maze.cells x y).wall = false →
    (1 ≤ x ∧ x < s.maze.width - 1 ∧ 0 ≤ y ∧ y < s.maze.height) ∧
    (s.maze.cells (x - 1) y).visited = true ∧ (s.maze.cells (x + 1) y).visited = true
  vflank : ∀ x y : Int, x % 2 = 1 → y % 2 = 0 → (s.maze.cells x y).wall = false →
    (0 ≤ x ∧ x < s.maze.width ∧ 1 ≤ y ∧ y < s.maze.height - 1) ∧
    (s.maze.cells x (y - 1)).visited = true ∧ (s.maze.cells x (y + 1)).visited = true
  conn : ∀ p : Int × Int, s.maze.inBounds p → (s.maze.cells p.1 p.2).visited = true →
    s.maze.reaches (1, 1) p
  countEq : s.maze.clearedBridgeCount + 1 = s.maze.visitedCellCount
  acyc : s.maze.passageGraph.IsAcyclic

/-! ## Basic lemmas about the grid model -/

lemma cells_setCell (m : Maze) (x y : Int) (c : Cell) (a b : Int) :
    (m.setCell x y c).cells a b = if a = x ∧ b = y then c else m.cells a b := rfl

@[simp] lemma width_setCell (m : Maze) (x y : Int) (c : Cell) :
    (m.setCell x y c).width = m.width := rfl

@[simp] lemma height_setCell (m : Maze) (x y : Int) (c : Cell) :
    (m.setCell x y c).height = m.height := rfl

@[simp] lemma inBounds_setCell (m : Maze) (x y : Int) (c : Cell) (p : Int × Int) :
    (m.setCell x y c).inBounds p ↔ m.inBounds p := Iff.rfl

@[simp] lemma domain_setCell (m : Maze) (x y : Int) (c : Cell) :
    (m.setCell x y c).domain = m.domain := rfl

lemma mem_domain (m : Maze) (p : Int × Int) : p ∈ m.domain ↔ m.inBounds p := by
  cases p with
  | mk a b =>
    simp [Maze.domain, Maze.inBounds, Finset.mem_Icc]
    omega

lemma isValidCoordinate_iff (x y w h : Int) :
    MazeUtils.isValidCoordinate x y w h = true ↔ (0 ≤ x ∧ x < w ∧ 0 ≤ y ∧ y < h) := by
  simp [MazeUtils.isValidCoordinate, and_assoc]

lemma mem_getUnvisitedNeighbors {s : RBState} {x y : Int} {d : Int × Int} :
    d ∈ s.getUnvisitedNeighbors x y ↔
      ((d = (x, y - 2) ∨ d = (x + 2, y) ∨ d = (x, y + 2) ∨ d = (x - 2, y)) ∧
       s.maze.inBounds d ∧ (s.maze.cells d.1 d.2).visited = false) := by
  simp only [RBState.getUnvisitedNeighbors, recursiveStepSize, List.mem_filter,
    Bool.and_eq_true, Bool.not_eq_true', Maze.getCell,
    List.mem_cons, List.not_mem_nil, or_false]
  constructor
  · rintro ⟨hmem, hval, hvis⟩
    exact ⟨hmem, by
      rw [isValidCoordinate_iff] at hval
      exact ⟨hval.1, hval.2.1, hval.2.2.1, hval.2.2.2⟩, hvis⟩
  · rintro ⟨hmem, hin, hvis⟩
    refine ⟨hmem, ?_, hvis⟩
    rw [isValidCoordinate_iff]
    exact ⟨hin.1, hin.2.1, hin.2.2.1, hin.2.2.2⟩

/-! ## Shape lemmas for `step()` -/

lemma step_of_complete (s : RBState) (r : Nat) (h : s.isComplete = true) :
    s.step r =
      ({ complete := true, current := s.current, step := none, stackSize := none }, s) := by
  simp [RBState.step, h]

lemma step_snd_advance (s : RBState) (r : Nat) (h : s.isComplete = false)
    (hn : 0 < (s.getUnvisitedNeighbors s.current.1 s.current.2).length) :
    (s.step r).2 = s.advance
      ((s.getUnvisitedNeighbors s.current.1 s.current.2).getD
        (r % (s.getUnvisitedNeighbors s.current.1 s.current.2).length) (0, 0)) := by
  simp [RBState.step, h, hn]

lemma step_snd_backtrack (s : RBState) (r : Nat) (top : Int × Int)
    (rest : List (Int × Int)) (h : s.isComplete = false)
    (hn : (s.getUnvisitedNeighbors s.current.1 s.current.2).length = 0)
    (hs : s.stack = top :: rest) :
    (s.step r).2 = s.backtrack top rest := by
  simp [RBState.step, h, hn, hs]

lemma step_snd_finish (s : RBState) (r : Nat) (h : s.isComplete = false)
    (hn : (s.getUnvisitedNeighbors s.current.1 s.current.2).length = 0)
    (hs : s.stack = []) :
    (s.step r).2 = s.finish := by
  simp [RBState.step, h, hn, hs]

lemma step_fst_of_not_complete (s : RBState) (r : Nat) (h : s.isComplete = false) :
    (s.step r).1 =
      { complete := (s.step r).2.isComplete, current := (s.step r).2.current,
        step := some (s.step r).2.stepCount,
        stackSize := some (s.step r).2.stack.length } := by
  simp [RBState.step, h]

lemma stepCount_step (s : RBState) (r : Nat) (h : s.isComplete = false) :
    (s.step r).2.stepCount = s.stepCount + 1 := by
  simp only [RBState.step, h, Bool.false_eq_true, if_false]
  split
  · rfl
  · split <;> rfl

lemma maze_dims_step (s : RBState) (r : Nat) :
    (s.step r).2.maze.width = s.maze.width ∧
    (s.step r).2.maze.height = s.maze.height := by
  by_cases h : s.isComplete = true
  · rw [step_of_complete s r h]; exact ⟨rfl, rfl⟩
  · rw [Bool.not_eq_true] at h
    simp only [RBState.step, h, Bool.false_eq_true, if_false]
    split
    · exact ⟨rfl, rfl⟩
    · split <;> exact ⟨rfl, rfl⟩

lemma maze_dims_run (s : RBState) (cs : List Nat) :
    (s.run cs).maze.width = s.maze.width ∧
    (s.run cs).maze.height = s.maze.height := by
  induction cs generalizing s with
  | nil => exact ⟨rfl, rfl⟩
  | cons r rest ih =>
    have h1 := maze_dims_step s r
    have h2 := ih ((s.step r).2)
    exact ⟨h2.1.trans h1.1, h2.2.trans h1.2⟩

lemma run_cons (s : RBState) (r : Nat) (cs : List Nat) :
    s.run (r :: cs) = ((s.step r).2).run cs := rfl

lemma getD_mem_of_lt {α : Type} {l : List α} {i : Nat} {d : α} (h : i < l.length) :
    l.getD i d ∈ l := by
  rw [List.getD_eq_getElem?_getD, List.getElem?_eq_getElem h, Option.getD_some]
  exact List.getElem_mem h

/-- The cell chosen by the carving branch: it is one of the four candidates,
in bounds and unvisited. -/
lemma chosen_neighbor_mem (s : RBState) (r : Nat)
    (hn : 0 < (s.getUnvisitedNeighbors s.current.1 s.current.2).length) :
    (s.getUnvisitedNeighbors s.current.1 s.current.2).getD
      (r % (s.getUnvisitedNeighbors s.current.1 s.current.2).length) (0, 0) ∈
      s.getUnvisitedNeighbors s.current.1 s.current.2 :=
  getD_mem_of_lt (Nat.mod_lt _ hn)

/-! ## Cell-level descriptions of the three `step()` branches -/

@[simp] lemma advance_current (s : RBState) (n : Int × Int) :
    (s.advance n).current = n := rfl

@[simp] lemma advance_isComplete (s : RBState) (n : Int × Int) :
    (s.advance n).isComplete = false := rfl

@[simp] lemma advance_stack (s : RBState) (n : Int × Int) :
    (s.advance n).stack = s.current :: s.stack := rfl

@[simp] lemma advance_width (s : RBState) (n : Int × Int) :
    (s.advance n).maze.width = s.maze.width := rfl

@[simp] lemma advance_height (s : RBState) (n : Int × Int) :
    (s.advance n).maze.height = s.maze.height := rfl

@[simp] lemma backtrack_current (s : RBState) (t : Int × Int) (rest : List (Int × Int)) :
    (s.backtrack t rest).current = t := rfl

@[simp] lemma backtrack_isComplete (s : RBState) (t : Int × Int) (rest : List (Int × Int)) :
    (s.backtrack t rest).isComplete = false := rfl

@[simp] lemma backtrack_stack (s : RBState) (t : Int × Int) (rest : List (Int × Int)) :
    (s.backtrack t rest).stack = rest := rfl

@[simp] lemma backtrack_width (s : RBState) (t : Int × Int) (rest : List (Int × Int)) :
    (s.backtrack t rest).maze.width = s.maze.width := rfl

@[simp] lemma backtrack_height (s : RBState) (t : Int × Int) (rest : List (Int × Int)) :
    (s.backtrack t rest).maze.height = s.maze.height := rfl

@[simp] lemma finish_current (s : RBState) : s.finish.current = s.current := rfl

@[simp] lemma finish_isComplete (s : RBState) : s.finish.isComplete = true := rfl

@[simp] lemma finish_stack (s : RBState) : s.finish.stack = [] := rfl

@[simp] lemma finish_width (s : RBState) : s.finish.maze.width = s.maze.width := rfl

@[simp] lemma finish_height (s : RBState) : s.finish.maze.height = s.maze.height := rfl

lemma cells_advance (s : RBState) (next : Int × Int) (a b : Int) :
    (s.advance next).maze.cells a b =
      if a = next.1 ∧ b = next.2 then ⟨false, true, true, false⟩
      else if a = s.current.1 ∧ b = s.current.2 then ⟨false, true, false, true⟩
      else if a = s.current.1 + (next.1 - s.current.1) / 2 ∧
              b = s.current.2 + (next.2 - s.current.2) / 2 then
        ⟨false, true, false, true⟩
      else s.maze.cells a b := by
  simp only [RBState.advance, cells_setCell]
  by_cases h1 : a = next.1 ∧ b = next.2 <;> simp [h1]

lemma cells_backtrack (s : RBState) (top : Int × Int) (rest : List (Int × Int))
    (a b : Int) :
    (s.backtrack top rest).maze.cells a b =
      if a = top.1 ∧ b = top.2 then ⟨false, true, true, true⟩
      else if a = s.current.1 ∧ b = s.current.2 then ⟨false, true, false, true⟩
      else s.maze.cells a b := rfl

lemma cells_finish (s : RBState) (a b : Int) :
    s.finish.maze.cells a b =
      if a = s.current.1 ∧ b = s.current.2 then ⟨false, true, false, true⟩
      else s.maze.cells a b := rfl

@[simp] lemma initState_isComplete (w h : Int) : (initState w h).isComplete = false := rfl

@[simp] lemma initState_current (w h : Int) : (initState w h).current = (1, 1) := rfl

@[simp] lemma initState_stack (w h : Int) : (initState w h).stack = [] := rfl

@[simp] lemma initState_stepCount (w h : Int) : (initState w h).stepCount = 0 := rfl

@[simp] lemma initState_width (w h : Int) : (initState w h).maze.width = w := rfl

@[simp] lemma initState_height (w h : Int) : (initState w h).maze.height = h := rfl

lemma cells_initState (w h x y : Int) :
    (initState w h).maze.cells x y =
      if x = 1 ∧ y = 1 then ⟨false, true, true, false⟩
      else ⟨true, false, false, false⟩ := rfl

/-! ## The marker invariant (exactly one `current` cell while active) -/

lemma curInv_initState (w h : Int) (hw : 1 < w) (hh : 1 < h) :
    CurInv (initState w h) := by
  refine ⟨?_, ?_, ?_⟩
  · intro x y
    rw [cells_initState]
    by_cases hxy : x = 1 ∧ y = 1
    · rw [if_pos hxy]
      simp only [initState_isComplete, initState_current]
      simp
      omega
    · rw [if_neg hxy]
      simp only [initState_isComplete, initState_current]
      simp
      omega
  · exact ⟨by norm_num, by simpa using hw, by norm_num, by simpa using hh⟩
  · intro q hq
    simp at hq

lemma curInv_advance (s : RBState) (next : Int × Int)
    (inv : CurInv s) (h : s.isComplete = false)
    (hmem : next ∈ s.getUnvisitedNeighbors s.current.1 s.current.2) :
    CurInv (s.advance next) := by
  obtain ⟨hdir, hin, -⟩ := mem_getUnvisitedNeighbors.mp hmem
  have hne_cn : next.1 ≠ s.current.1 ∨ next.2 ≠ s.current.2 := by
    rcases hdir with h' | h' | h' | h'
    · exact h' ▸ Or.inr (by show s.current.2 - 2 ≠ s.current.2; omega)
    · exact h' ▸ Or.inl (by show s.current.1 + 2 ≠ s.current.1; omega)
    · exact h' ▸ Or.inr (by show s.current.2 + 2 ≠ s.current.2; omega)
    · exact h' ▸ Or.inl (by show s.current.1 - 2 ≠ s.current.1; omega)
  refine ⟨?_, ?_, ?_⟩
  · intro x y
    rw [cells_advance]
    simp only [advance_isComplete, advance_current]
    by_cases h1 : x = next.1 ∧ y = next.2
    · rw [if_pos h1]; simp; omega
    · rw [if_neg h1]
      by_cases h2 : x = s.current.1 ∧ y = s.current.2
      · rw [if_pos h2]; simp; omega
      · rw [if_neg h2]
        by_cases h3 : x = s.current.1 + (next.1 - s.current.1) / 2 ∧
            y = s.current.2 + (next.2 - s.current.2) / 2
        · rw [if_pos h3]; simp; omega
        · rw [if_neg h3]
          rw [inv.curMark x y, h]
          simp
          omega
  · simpa using hin
  · intro q hq
    rw [advance_stack] at hq
    rcases List.mem_cons.mp hq with rfl | hq'
    · simpa using inv.curIn
    · simpa using inv.stackIn q hq'

lemma curInv_backtrack (s : RBState) (top : Int × Int) (rest : List (Int × Int))
    (inv : CurInv s) (h : s.isComplete = false) (hs : s.stack = top :: rest) :
    CurInv (s.backtrack top rest) := by
  refine ⟨?_, ?_, ?_⟩
  · intro x y
    rw [cells_backtrack]
    simp only [backtrack_isComplete, backtrack_current]
    by_cases h1 : x = top.1 ∧ y = top.2
    · rw [if_pos h1]; simp; omega
    · rw [if_neg h1]
      by_cases h2 : x = s.current.1 ∧ y = s.current.2
      · rw [if_pos h2]; simp; omega
      · rw [if_neg h2]
        rw [inv.curMark x y, h]
        simp
        omega
  · simpa using inv.stackIn top (by rw [hs]; exact List.mem_cons_self _ _)
  · intro q hq
    rw [backtrack_stack] at hq
    have : q ∈ s.stack := by rw [hs]; exact List.mem_cons_of_mem _ hq
    simpa using inv.stackIn q this

lemma curInv_finish (s : RBState) (inv : CurInv s) : CurInv s.finish := by
  refine ⟨?_, ?_, ?_⟩
  · intro x y
    rw [cells_finish]
    simp only [finish_isComplete]
    by_cases h1 : x = s.current.1 ∧ y = s.current.2
    · rw [if_pos h1]; simp
    · rw [if_neg h1]
      rw [inv.curMark x y]
      simp
      omega
  · simpa using inv.curIn
  · intro q hq
    simp at hq

lemma curInv_step (s : RBState) (r : Nat) (inv : CurInv s) :
    CurInv ((s.step r).2) := by
  by_cases hc : s.isComplete = true
  · rw [step_of_complete s r hc]; exact inv
  · rw [Bool.not_eq_true] at hc
    by_cases hn : 0 < (s.getUnvisitedNeighbors s.current.1 s.current.2).length
    · rw [step_snd_advance s r hc hn]
      exact curInv_advance s _ inv hc (chosen_neighbor_mem s r hn)
    · have hn0 : (s.getUnvisitedNeighbors s.current.1 s.current.2).length = 0 := by omega
      cases hs : s.stack with
      | cons top rest =>
        rw [step_snd_backtrack s r top rest hc hn0 hs]
        exact curInv_backtrack s top rest inv hc hs
      | nil =>
        rw [step_snd_finish s r hc hn0 hs]
        exact curInv_finish s inv

lemma curInv_run (s : RBState) (cs : List Nat) (inv : CurInv s) :
    CurInv (s.run cs) := by
  induction cs generalizing s with
  | nil => exact inv
  | cons r rest ih => exact ih _ (curInv_step s r inv)

/-! ## The progress-callback trace of `generate()` -/

lemma genTrace_nil (s : RBState) (n : Nat) : genTrace s [] n = [] := rfl

lemma genTrace_cons (s : RBState) (r : Nat) (rest : List Nat) (n : Nat) :
    genTrace s (r :: rest) n =
      if s.isComplete then []
      else
        { percentage := (((n + 1 : Nat) : Rat) / ((totalCellsTarget s.maze : Int) : Rat)) * 100
          stepCount := (s.step r).2.stepCount
          result := (s.step r).1 } :: genTrace (s.step r).2 rest (n + 1) := rfl

lemma genTrace_spec (cs : List Nat) :
    ∀ (s : RBState) (n i : Nat), i < (genTrace s cs n).length →
      ((genTrace s cs n).getD i defaultEvent).percentage =
        (((n + i + 1 : Nat) : Rat) / ((totalCellsTarget s.maze : Int) : Rat)) * 100 ∧
      ((genTrace s cs n).getD i defaultEvent).stepCount = s.stepCount + i + 1 := by
  induction cs with
  | nil =>
    intro s n i hi
    simp [genTrace_nil] at hi
  | cons r rest ih =>
    intro s n i hi
    by_cases hc : s.isComplete = true
    · rw [genTrace_cons, if_pos (by simp [hc])] at hi
      simp at hi
    · rw [Bool.not_eq_true] at hc
      have hiff : ¬(s.isComplete = true) := by simp [hc]
      rw [genTrace_cons, if_neg hiff] at hi ⊢
      cases i with
      | zero =>
        refine ⟨rfl, ?_⟩
        simpa using stepCount_step s r hc
      | succ j =>
        have hj : j < (genTrace (s.step r).2 rest (n + 1)).length := by
          simpa using hi
        have hrec := ih ((s.step r).2) (n + 1) j hj
        have hdim : totalCellsTarget (s.step r).2.maze = totalCellsTarget s.maze := by
          unfold totalCellsTarget
          rw [(maze_dims_step s r).1, (maze_dims_step s r).2]
        rw [List.getD_cons_succ]
        constructor
        · have := hrec.1
          rw [hdim] at this
          have harith : n + 1 + j + 1 = n + (j + 1) + 1 := by omega
          rw [harith] at this
          exact this
        · have := hrec.2
          rw [stepCount_step s r hc] at this
          have harith : s.stepCount + 1 + j + 1 = s.stepCount + (j + 1) + 1 := by omega
          rw [harith] at this
          exact this

/-! ## General graph facts: the first edge of a walk, and acyclicity is
preserved when a pendant corridor (two fresh vertices) is attached -/

lemma walk_first_edge {V : Type} {G : SimpleGraph V} {a d : V} (w : G.Walk a d)
    (hne : a ≠ d) : ∃ y, G.Adj a y ∧ s(a, y) ∈ w.edges := by
  cases w with
  | nil => exact absurd rfl hne
  | cons h t => exact ⟨_, h, by simp⟩

lemma pendant_acyclic {V : Type} [DecidableEq V] {G G' : SimpleGraph V} {c b n : V}
    (hGA : G.IsAcyclic)
    (hchar : ∀ x y, G'.Adj x y ↔ G.Adj x y ∨ (x = c ∧ y = b) ∨ (x = b ∧ y = c) ∨
      (x = b ∧ y = n) ∨ (x = n ∧ y = b))
    (hbfresh : ∀ z, ¬G.Adj b z) (hnfresh : ∀ z, ¬G.Adj n z)
    (hbn : b ≠ n) (hcb : c ≠ b) (hcn : c ≠ n) : G'.IsAcyclic := by
  have hnbr_n : ∀ z, G'.Adj n z → z = b := by
    intro z hz
    rcases (hchar n z).mp hz with h | ⟨h1, h2⟩ | ⟨h1, h2⟩ | ⟨h1, h2⟩ | ⟨h1, h2⟩
    · exact absurd h (hnfresh z)
    · exact absurd h1.symm hcn
    · exact absurd h1.symm hbn
    · exact absurd h1.symm hbn
    · exact h2
  have hnbr_b : ∀ z, G'.Adj b z → z = c ∨ z = n := by
    intro z hz
    rcases (hchar b z).mp hz with h | ⟨h1, h2⟩ | ⟨h1, h2⟩ | ⟨h1, h2⟩ | ⟨h1, h2⟩
    · exact absurd h (hbfresh z)
    · exact absurd h1.symm hcb
    · exact Or.inl h2
    · exact Or.inr h2
    · exact absurd h1 hbn
  have hn_no : ∀ (cyc : G'.Walk n n), ¬cyc.IsCycle := by
    intro cyc hcyc
    cases cyc with
    | nil => exact hcyc.ne_nil rfl
    | @cons _ x _ hadj t =>
      have hxb : x = b := hnbr_n x hadj
      rw [SimpleGraph.Walk.cons_isCycle_iff] at hcyc
      obtain ⟨hpath, hedge⟩ := hcyc
      obtain ⟨y, hay, hmem⟩ := walk_first_edge t.reverse (by
        rw [hxb]; exact hbn.symm)
      have hyb : y = b := hnbr_n y hay
      rw [SimpleGraph.Walk.edges_reverse, List.mem_reverse] at hmem
      rw [hyb, ← hxb] at hmem
      exact hedge hmem
  have hb_no : ∀ (cyc : G'.Walk b b), n ∉ cyc.support → ¬cyc.IsCycle := by
    intro cyc hns hcyc
    cases cyc with
    | nil => exact hcyc.ne_nil rfl
    | @cons _ x _ hadj t =>
      have hxs : x ∈ (SimpleGraph.Walk.cons hadj t).support := by
        rw [SimpleGraph.Walk.support_cons]
        exact List.mem_cons_of_mem _ t.start_mem_support
      have hxc : x = c := by
        rcases hnbr_b x hadj with h | h
        · exact h
        · exact absurd (h ▸ hxs) hns
      rw [SimpleGraph.Walk.cons_isCycle_iff] at hcyc
      obtain ⟨hpath, hedge⟩ := hcyc
      obtain ⟨y, hay, hmem⟩ := walk_first_edge t.reverse (by
        rw [hxc]; exact hcb.symm)
      have hys : y ∈ t.support := by
        rw [SimpleGraph.Walk.edges_reverse, List.mem_reverse] at hmem
        exact SimpleGraph.Walk.snd_mem_support_of_mem_edges t hmem
      have hyc : y = c := by
        rcases hnbr_b y hay with h | h
        · exact h
        · refine absurd ?_ hns
          rw [← h, SimpleGraph.Walk.support_cons]
          exact List.mem_cons_of_mem _ hys
      rw [SimpleGraph.Walk.edges_reverse, List.mem_reverse] at hmem
      rw [hyc, ← hxc] at hmem
      exact hedge hmem
  intro v cyc hcyc
  by_cases hn : n ∈ cyc.support
  · exact hn_no (cyc.rotate hn) (hcyc.rotate hn)
  · by_cases hb : b ∈ cyc.support
    · refine hb_no (cyc.rotate hb) ?_ (hcyc.rotate hb)
      intro hmem
      have h1 : n = b ∨ n ∈ (cyc.rotate hb).support.tail := by
        have hs := SimpleGraph.Walk.support_eq_cons (cyc.rotate hb)
        rw [hs] at hmem
        exact List.mem_cons.mp hmem
      rcases h1 with h1 | h1
      · exact hbn h1.symm
      · have h2 : n ∈ cyc.support.tail :=
          (SimpleGraph.Walk.support_rotate cyc hb).mem_iff.mp h1
        apply hn
        have hs := SimpleGraph.Walk.support_eq_cons cyc
        rw [hs]
        exact List.mem_cons_of_mem _ h2
    · have key : ∀ p q : V, s(p, q) ∈ cyc.edges → s(p, q) ∈ G.edgeSet := by
        intro p q he
        have hadj : G'.Adj p q := cyc.edges_subset_edgeSet he
        have hps : p ∈ cyc.support := SimpleGraph.Walk.fst_mem_support_of_mem_edges cyc he
        have hqs : q ∈ cyc.support := SimpleGraph.Walk.snd_mem_support_of_mem_edges cyc he
        rcases (hchar p q).mp hadj with h | ⟨h1, h2⟩ | ⟨h1, h2⟩ | ⟨h1, h2⟩ | ⟨h1, h2⟩
        · exact h
        · exact absurd (h2 ▸ hqs) hb
        · exact absurd (h1 ▸ hps) hb
        · exact absurd (h1 ▸ hps) hb
        · exact absurd (h1 ▸ hps) hn
      have hsub : ∀ e ∈ cyc.edges, e ∈ G.edgeSet := by
        intro e
        induction e using Sym2.ind with
        | _ p q => exact key p q
      exact hGA (cyc.transfer G hsub) (hcyc.transfer hsub)

/-! ## Congruence lemmas: the passage graph and the counts only depend on
the wall/visited flags and the dimensions -/

lemma passageAdj_congr {m m' : Maze} (hw : m'.width = m.width)
    (hh : m'.height = m.height)
    (hwall : ∀ a b, (m'.cells a b).wall = (m.cells a b).wall) :
    m'.passageAdj = m.passageAdj := by
  funext p q
  apply propext
  unfold Maze.passageAdj Maze.isPassage Maze.inBounds
  rw [hw, hh, hwall, hwall]

lemma passageGraph_congr {m m' : Maze} (hw : m'.width = m.width)
    (hh : m'.height = m.height)
    (hwall : ∀ a b, (m'.cells a b).wall = (m.cells a b).wall) :
    m'.passageGraph = m.passageGraph := by
  refine SimpleGraph.ext ?_
  show m'.passageAdj = m.passageAdj
  exact passageAdj_congr hw hh hwall

lemma reaches_congr {m m' : Maze} (hw : m'.width = m.width)
    (hh : m'.height = m.height)
    (hwall : ∀ a b, (m'.cells a b).wall = (m.cells a b).wall) :
    m'.reaches = m.reaches := by
  unfold Maze.reaches
  rw [passageAdj_congr hw hh hwall]

lemma domain_congr {m m' : Maze} (hw : m'.width = m.width)
    (hh : m'.height = m.height) : m'.domain = m.domain := by
  unfold Maze.domain
  rw [hw, hh]

lemma visitedCellCount_congr {m m' : Maze} (hw : m'.width = m.width)
    (hh : m'.height = m.height)
    (hvis : ∀ a b, (m'.cells a b).visited = (m.cells a b).visited) :
    m'.visitedCellCount = m.visitedCellCount := by
  unfold Maze.visitedCellCount
  rw [domain_congr hw hh]
  congr 1
  refine Finset.filter_congr ?_
  intro p _
  rw [hvis]

lemma clearedBridgeCount_congr {m m' : Maze} (hw : m'.width = m.width)
    (hh : m'.height = m.height)
    (hwall : ∀ a b, (m'.cells a b).wall = (m.cells a b).wall) :
    m'.clearedBridgeCount = m.clearedBridgeCount := by
  unfold Maze.clearedBridgeCount
  rw [domain_congr hw hh]
  congr 1
  refine Finset.filter_congr ?_
  intro p _
  rw [hwall]

/-! ## Counting helper: a filter's cardinality grows by one when exactly one
new element starts satisfying the predicate -/

lemma filter_card_succ {α : Type} [DecidableEq α] (s : Finset α) (P Q : α → Prop)
    [DecidablePred P] [DecidablePred Q] (t : α) (ht : t ∈ s)
    (hsame : ∀ a ∈ s, a ≠ t → (P a ↔ Q a)) (hPt : ¬P t) (hQt : Q t) :
    (s.filter Q).card = (s.filter P).card + 1 := by
  have hins : s.filter Q = insert t (s.filter P) := by
    ext a
    simp only [Finset.mem_filter, Finset.mem_insert]
    constructor
    · rintro ⟨ha, hQ⟩
      by_cases hat : a = t
      · exact Or.inl hat
      · exact Or.inr ⟨ha, (hsame a ha hat).mpr hQ⟩
    · rintro (rfl | ⟨ha, hP⟩)
      · exact ⟨ht, hQt⟩
      · refine ⟨ha, ?_⟩
        by_cases hat : a = t
        · exact absurd (hat ▸ hP) hPt
        · exact (hsame a ha hat).mp hP
  rw [hins, Finset.card_insert_of_not_mem]
  simp only [Finset.mem_filter]
  rintro ⟨-, hP⟩
  exact hPt hP

lemma isAcyclic_of_no_adj {V : Type} {G : SimpleGraph V} (h : ∀ p q, ¬G.Adj p q) :
    G.IsAcyclic := by
  intro v cyc hcyc
  cases cyc with
  | nil => exact hcyc.ne_nil rfl
  | cons hadj t => exact h _ _ hadj

/-! ## The structural invariant holds after `initialize()` -/

lemma rbInv_initState (w h : Int) (hw : 1 < w) (hh : 1 < h) :
    RBInv (initState w h) := by
  have hcell : ∀ x y : Int, (initState w h).maze.cells x y =
      if x = 1 ∧ y = 1 then ⟨false, true, true, false⟩
      else ⟨true, false, false, false⟩ := fun x y => cells_initState w h x y
  have hwallval : ∀ x y : Int, ((initState w h).maze.cells x y).wall = false →
      x = 1 ∧ y = 1 := by
    intro x y hxy
    rw [hcell] at hxy
    by_cases h1 : x = 1 ∧ y = 1
    · exact h1
    · rw [if_neg h1] at hxy
      exact absurd hxy (by simp)
  have hvisval : ∀ x y : Int, ((initState w h).maze.cells x y).visited = true →
      x = 1 ∧ y = 1 := by
    intro x y hxy
    rw [hcell] at hxy
    by_cases h1 : x = 1 ∧ y = 1
    · exact h1
    · rw [if_neg h1] at hxy
      exact absurd hxy (by simp)
  refine ⟨?_, ?_, ?_, ?_, ?_, ?_, ?_, ?_, ?_, ?_, ?_, ?_, ?_⟩
  · intro x y
    rw [hcell]
    split_ifs <;> rfl
  · intro x y hx hy
    rw [hcell]
    split_ifs with h1
    · exact absurd hx (by rw [h1.1]; norm_num)
    · rfl
  · exact ⟨by norm_num, by norm_num⟩
  · exact ⟨by norm_num, by simpa using hw, by norm_num, by simpa using hh⟩
  · rw [hcell, if_pos ⟨rfl, rfl⟩]
  · intro q hq; simp at hq
  · intro q hq; simp at hq
  · intro q hq; simp at hq
  · intro x y hx hy hwall
    obtain ⟨h1, h2⟩ := hwallval x y hwall
    exact absurd hx (by rw [h1]; norm_num)
  · intro x y hx hy hwall
    obtain ⟨h1, h2⟩ := hwallval x y hwall
    exact absurd hy (by rw [h2]; norm_num)
  · intro p hin hvis
    obtain ⟨h1, h2⟩ := hvisval p.1 p.2 hvis
    have : p = ((1 : Int), (1 : Int)) := Prod.ext h1 h2
    rw [this]
    exact Relation.ReflTransGen.refl
  · have hc : ((initState w h).maze.domain.filter fun p =>
        bridgePos p ∧ ((initState w h).maze.cells p.1 p.2).wall = false) = ∅ := by
      ext p
      simp only [Finset.mem_filter, Finset.not_mem_empty, iff_false, not_and]
      intro hdom hbr
      intro hwall
      obtain ⟨h1, h2⟩ := hwallval p.1 p.2 hwall
      unfold bridgePos at hbr
      omega
    have hv : ((initState w h).maze.domain.filter fun p =>
        cellPos p ∧ ((initState w h).maze.cells p.1 p.2).visited = true) =
        {((1 : Int), (1 : Int))} := by
      ext p
      simp only [Finset.mem_filter, Finset.mem_singleton]
      constructor
      · rintro ⟨hdom, hcp, hvis⟩
        obtain ⟨h1, h2⟩ := hvisval p.1 p.2 hvis
        exact Prod.ext h1 h2
      · rintro rfl
        refine ⟨(mem_domain _ _).mpr ⟨by norm_num, by simpa using hw,
          by norm_num, by simpa using hh⟩, ⟨by norm_num, by norm_num⟩, ?_⟩
        rw [hcell, if_pos ⟨rfl, rfl⟩]
    unfold Maze.clearedBridgeCount Maze.visitedCellCount
    rw [hc, hv]
    simp
  · refine isAcyclic_of_no_adj ?_
    rintro p q ⟨hp, hq, hadj⟩
    obtain ⟨hp1, hp2⟩ := hwallval p.1 p.2 hp.2
    obtain ⟨hq1, hq2⟩ := hwallval q.1 q.2 hq.2
    unfold unitAdj at hadj
    omega

/-! ## The structural invariant is preserved by the backtracking and
terminal branches (they only repaint `current`/`path` flags) -/

lemma rbInv_backtrack (s : RBState) (top : Int × Int) (rest : List (Int × Int))
    (inv : RBInv s) (hs : s.stack = top :: rest) :
    RBInv (s.backtrack top rest) := by
  have hmemtop : top ∈ s.stack := by rw [hs]; exact List.mem_cons_self _ _
  have htopvis := inv.stackVis top hmemtop
  have htopwall : (s.maze.cells top.1 top.2).wall = false := by
    have := inv.visWall top.1 top.2
    rw [htopvis] at this
    cases hb : (s.maze.cells top.1 top.2).wall
    · rfl
    · rw [hb] at this; simp at this
  have hcurwall : (s.maze.cells s.current.1 s.current.2).wall = false := by
    have := inv.visWall s.current.1 s.current.2
    rw [inv.curVis] at this
    cases hb : (s.maze.cells s.current.1 s.current.2).wall
    · rfl
    · rw [hb] at this; simp at this
  have hflags : ∀ a b : Int,
      (((s.backtrack top rest).maze.cells a b).wall = (s.maze.cells a b).wall) ∧
      (((s.backtrack top rest).maze.cells a b).visited = (s.maze.cells a b).visited) := by
    intro a b
    rw [cells_backtrack]
    by_cases h1 : a = top.1 ∧ b = top.2
    · rw [if_pos h1]
      obtain ⟨rfl, rfl⟩ := h1
      exact ⟨htopwall.symm, htopvis.symm⟩
    · rw [if_neg h1]
      by_cases h2 : a = s.current.1 ∧ b = s.current.2
      · rw [if_pos h2]
        obtain ⟨rfl, rfl⟩ := h2
        exact ⟨hcurwall.symm, inv.curVis.symm⟩
      · rw [if_neg h2]
        exact ⟨rfl, rfl⟩
  have hwallf : ∀ a b : Int,
      ((s.backtrack top rest).maze.cells a b).wall = (s.maze.cells a b).wall :=
    fun a b => (hflags a b).1
  have hvisf : ∀ a b : Int,
      ((s.backtrack top rest).maze.cells a b).visited = (s.maze.cells a b).visited :=
    fun a b => (hflags a b).2
  refine ⟨?_, ?_, ?_, ?_, ?_, ?_, ?_, ?_, ?_, ?_, ?_, ?_, ?_⟩
  · intro x y; rw [hwallf, hvisf]; exact inv.visWall x y
  · intro x y hx hy; rw [hwallf]; exact inv.pillar x y hx hy
  · exact inv.stackOdd top hmemtop
  · simpa using inv.stackIn top hmemtop
  · show ((s.backtrack top rest).maze.cells top.1 top.2).visited = true
    rw [hvisf]; exact htopvis
  · intro q hq
    rw [backtrack_stack] at hq
    exact inv.stackOdd q (by rw [hs]; exact List.mem_cons_of_mem _ hq)
  · intro q hq
    rw [backtrack_stack] at hq
    simpa using inv.stackIn q (by rw [hs]; exact List.mem_cons_of_mem _ hq)
  · intro q hq
    rw [backtrack_stack] at hq
    rw [hvisf]
    exact inv.stackVis q (by rw [hs]; exact List.mem_cons_of_mem _ hq)
  · intro x y hx hy hwall
    rw [hwallf] at hwall
    obtain ⟨hb, hv1, hv2⟩ := inv.hflank x y hx hy hwall
    exact ⟨by simpa using hb, by rw [hvisf]; exact hv1, by rw [hvisf]; exact hv2⟩
  · intro x y hx hy hwall
    rw [hwallf] at hwall
    obtain ⟨hb, hv1, hv2⟩ := inv.vflank x y hx hy hwall
    exact ⟨by simpa using hb, by rw [hvisf]; exact hv1, by rw [hvisf]; exact hv2⟩
  · intro p hin hvis
    rw [hvisf] at hvis
    rw [reaches_congr (by simp) (by simp) hwallf]
    exact inv.conn p (by simpa using hin) hvis
  · rw [clearedBridgeCount_congr (by simp) (by simp) hwallf,
      visitedCellCount_congr (by simp) (by simp) hvisf]
    exact inv.countEq
  · rw [passageGraph_congr (by simp) (by simp) hwallf]
    exact inv.acyc

lemma rbInv_finish (s : RBState) (inv : RBInv s) : RBInv s.finish := by
  have hcurwall : (s.maze.cells s.current.1 s.current.2).wall = false := by
    have := inv.visWall s.current.1 s.current.2
    rw [inv.curVis] at this
    cases hb : (s.maze.cells s.current.1 s.current.2).wall
    · rfl
    · rw [hb] at this; simp at this
  have hflags : ∀ a b : Int,
      ((s.finish.maze.cells a b).wall = (s.maze.cells a b).wall) ∧
      ((s.finish.maze.cells a b).visited = (s.maze.cells a b).visited) := by
    intro a b
    rw [cells_finish]
    by_cases h1 : a = s.current.1 ∧ b = s.current.2
    · rw [if_pos h1]
      obtain ⟨rfl, rfl⟩ := h1
      exact ⟨hcurwall.symm, inv.curVis.symm⟩
    · rw [if_neg h1]
      exact ⟨rfl, rfl⟩
  have hwallf : ∀ a b : Int,
      (s.finish.maze.cells a b).wall = (s.maze.cells a b).wall :=
    fun a b => (hflags a b).1
  have hvisf : ∀ a b : Int,
      (s.finish.maze.cells a b).visited = (s.maze.cells a b).visited :=
    fun a b => (hflags a b).2
  refine ⟨?_, ?_, ?_, ?_, ?_, ?_, ?_, ?_, ?_, ?_, ?_, ?_, ?_⟩
  · intro x y; rw [hwallf, hvisf]; exact inv.visWall x y
  · intro x y hx hy; rw [hwallf]; exact inv.pillar x y hx hy
  · exact inv.curOdd
  · simpa using inv.curIn
  · show (s.finish.maze.cells s.current.1 s.current.2).visited = true
    rw [hvisf]; exact inv.curVis
  · intro q hq; simp at hq
  · intro q hq; simp at hq
  · intro q hq; simp at hq
  · intro x y hx hy hwall
    rw [hwallf] at hwall
    obtain ⟨hb, hv1, hv2⟩ := inv.hflank x y hx hy hwall
    exact ⟨by simpa using hb, by rw [hvisf]; exact hv1, by rw [hvisf]; exact hv2⟩
  · intro x y hx hy hwall
    rw [hwallf] at hwall
    obtain ⟨hb, hv1, hv2⟩ := inv.vflank x y hx hy hwall
    exact ⟨by simpa using hb, by rw [hvisf]; exact hv1, by rw [hvisf]; exact hv2⟩
  · intro p hin hvis
    rw [hvisf] at hvis
    rw [reaches_congr (by simp) (by simp) hwallf]
    exact inv.conn p (by simpa using hin) hvis
  · rw [clearedBridgeCount_congr (by simp) (by simp) hwallf,
      visitedCellCount_congr (by simp) (by simp) hvisf]
    exact inv.countEq
  · rw [passageGraph_congr (by simp) (by simp) hwallf]
    exact inv.acyc

lemma unitAdj_symm {p q : Int × Int} (h : unitAdj p q) : unitAdj q p := by
  unfold unitAdj at h ⊢
  omega

set_option maxHeartbeats 2000000 in
lemma rbInv_advance (s : RBState) (next : Int × Int) (inv : RBInv s)
    (hmem : next ∈ s.getUnvisitedNeighbors s.current.1 s.current.2) :
    RBInv (s.advance next) := by
  obtain ⟨hdir, hnIn, hnVis0⟩ := mem_getUnvisitedNeighbors.mp hmem
  obtain ⟨hc1odd, hc2odd⟩ := inv.curOdd
  obtain ⟨hcin1, hcin2, hcin3, hcin4⟩ := inv.curIn
  obtain ⟨hnin1, hnin2, hnin3, hnin4⟩ := hnIn
  -- the four directions, with the wall cell coordinates computed
  have hD : (next.1 = s.current.1 ∧ next.2 = s.current.2 - 2 ∧
        s.current.1 + (next.1 - s.current.1) / 2 = s.current.1 ∧
        s.current.2 + (next.2 - s.current.2) / 2 = s.current.2 - 1) ∨
      (next.1 = s.current.1 + 2 ∧ next.2 = s.current.2 ∧
        s.current.1 + (next.1 - s.current.1) / 2 = s.current.1 + 1 ∧
        s.current.2 + (next.2 - s.current.2) / 2 = s.current.2) ∨
      (next.1 = s.current.1 ∧ next.2 = s.current.2 + 2 ∧
        s.current.1 + (next.1 - s.current.1) / 2 = s.current.1 ∧
        s.current.2 + (next.2 - s.current.2) / 2 = s.current.2 + 1) ∨
      (next.1 = s.current.1 - 2 ∧ next.2 = s.current.2 ∧
        s.current.1 + (next.1 - s.current.1) / 2 = s.current.1 - 1 ∧
        s.current.2 + (next.2 - s.current.2) / 2 = s.current.2) := by
    rcases hdir with h | h | h | h
    · left
      have e1 : next.1 = s.current.1 := by rw [h]
      have e2 : next.2 = s.current.2 - 2 := by rw [h]
      exact ⟨e1, e2, by omega, by omega⟩
    · right; left
      have e1 : next.1 = s.current.1 + 2 := by rw [h]
      have e2 : next.2 = s.current.2 := by rw [h]
      exact ⟨e1, e2, by omega, by omega⟩
    · right; right; left
      have e1 : next.1 = s.current.1 := by rw [h]
      have e2 : next.2 = s.current.2 + 2 := by rw [h]
      exact ⟨e1, e2, by omega, by omega⟩
    · right; right; right
      have e1 : next.1 = s.current.1 - 2 := by rw [h]
      have e2 : next.2 = s.current.2 := by rw [h]
      exact ⟨e1, e2, by omega, by omega⟩
  -- shorthand for the wall cell between current and next
  have hnOdd1 : next.1 % 2 = 1 := by rcases hD with h | h | h | h <;> omega
  have hnOdd2 : next.2 % 2 = 1 := by rcases hD with h | h | h | h <;> omega
  have hbPar : ((s.current.1 + (next.1 - s.current.1) / 2) % 2 = 1 ∧
        (s.current.2 + (next.2 - s.current.2) / 2) % 2 = 0) ∨
      ((s.current.1 + (next.1 - s.current.1) / 2) % 2 = 0 ∧
        (s.current.2 + (next.2 - s.current.2) / 2) % 2 = 1) := by
    rcases hD with h | h | h | h <;> [left; right; left; right] <;>
      constructor <;> omega
  have hbIn1 : 0 ≤ s.current.1 + (next.1 - s.current.1) / 2 := by
    rcases hD with h | h | h | h <;> omega
  have hbIn2 : s.current.1 + (next.1 - s.current.1) / 2 < s.maze.width := by
    rcases hD with h | h | h | h <;> omega
  have hbIn3 : 0 ≤ s.current.2 + (next.2 - s.current.2) / 2 := by
    rcases hD with h | h | h | h <;> omega
  have hbIn4 : s.current.2 + (next.2 - s.current.2) / 2 < s.maze.height := by
    rcases hD with h | h | h | h <;> omega
  have hne_nc : next.1 ≠ s.current.1 ∨ next.2 ≠ s.current.2 := by
    rcases hD with h | h | h | h <;> [right; left; right; left] <;> omega
  have hne_bc : s.current.1 + (next.1 - s.current.1) / 2 ≠ s.current.1 ∨
      s.current.2 + (next.2 - s.current.2) / 2 ≠ s.current.2 := by
    rcases hD with h | h | h | h <;> [right; left; right; left] <;> omega
  have hne_bn : s.current.1 + (next.1 - s.current.1) / 2 ≠ next.1 ∨
      s.current.2 + (next.2 - s.current.2) / 2 ≠ next.2 := by
    rcases hD with h | h | h | h <;> [right; left; right; left] <;> omega
  have hnWallOld : (s.maze.cells next.1 next.2).wall = true := by
    have := inv.visWall next.1 next.2
    rw [hnVis0] at this
    cases hb : (s.maze.cells next.1 next.2).wall
    · rw [hb] at this; simp at this
    · rfl
  have hcurwall : (s.maze.cells s.current.1 s.current.2).wall = false := by
    have := inv.visWall s.current.1 s.current.2
    rw [inv.curVis] at this
    cases hb : (s.maze.cells s.current.1 s.current.2).wall
    · rfl
    · rw [hb] at this; simp at this
  -- the wall cell is still an uncarved wall
  have hbWallOld : (s.maze.cells (s.current.1 + (next.1 - s.current.1) / 2)
      (s.current.2 + (next.2 - s.current.2) / 2)).wall = true := by
    cases hb : (s.maze.cells (s.current.1 + (next.1 - s.current.1) / 2)
        (s.current.2 + (next.2 - s.current.2) / 2)).wall
    · exfalso
      rcases hD with h | h | h | h
      · obtain ⟨-, hv1, -⟩ := inv.vflank _ _ (by omega) (by omega) hb
        rw [show s.current.1 + (next.1 - s.current.1) / 2 = next.1 by omega,
          show s.current.2 + (next.2 - s.current.2) / 2 - 1 = next.2 by omega] at hv1
        rw [hnVis0] at hv1
        simp at hv1
      · obtain ⟨-, -, hv2⟩ := inv.hflank _ _ (by omega) (by omega) hb
        rw [show s.current.1 + (next.1 - s.current.1) / 2 + 1 = next.1 by omega,
          show s.current.2 + (next.2 - s.current.2) / 2 = next.2 by omega] at hv2
        rw [hnVis0] at hv2
        simp at hv2
      · obtain ⟨-, -, hv2⟩ := inv.vflank _ _ (by omega) (by omega) hb
        rw [show s.current.1 + (next.1 - s.current.1) / 2 = next.1 by omega,
          show s.current.2 + (next.2 - s.current.2) / 2 + 1 = next.2 by omega] at hv2
        rw [hnVis0] at hv2
        simp at hv2
      · obtain ⟨-, hv1, -⟩ := inv.hflank _ _ (by omega) (by omega) hb
        rw [show s.current.1 + (next.1 - s.current.1) / 2 - 1 = next.1 by omega,
          show s.current.2 + (next.2 - s.current.2) / 2 = next.2 by omega] at hv1
        rw [hnVis0] at hv1
        simp at hv1
    · rfl
  -- evaluations of the updated grid
  have hnot_n_c : ¬(s.current.1 = next.1 ∧ s.current.2 = next.2) := by
    rintro ⟨e1, e2⟩
    rcases hne_nc with hne | hne <;> omega
  have hnot_b_n : ¬(s.current.1 + (next.1 - s.current.1) / 2 = next.1 ∧
      s.current.2 + (next.2 - s.current.2) / 2 = next.2) := by
    rintro ⟨e1, e2⟩
    rcases hne_bn with hne | hne <;> omega
  have hnot_b_c : ¬(s.current.1 + (next.1 - s.current.1) / 2 = s.current.1 ∧
      s.current.2 + (next.2 - s.current.2) / 2 = s.current.2) := by
    rintro ⟨e1, e2⟩
    rcases hne_bc with hne | hne <;> omega
  have hnew_n : (s.advance next).maze.cells next.1 next.2 =
      ⟨false, true, true, false⟩ := by
    rw [cells_advance, if_pos ⟨rfl, rfl⟩]
  have hnew_c : (s.advance next).maze.cells s.current.1 s.current.2 =
      ⟨false, true, false, true⟩ := by
    rw [cells_advance, if_neg hnot_n_c, if_pos ⟨rfl, rfl⟩]
  have hnew_b : (s.advance next).maze.cells
      (s.current.1 + (next.1 - s.current.1) / 2)
      (s.current.2 + (next.2 - s.current.2) / 2) = ⟨false, true, false, true⟩ := by
    rw [cells_advance, if_neg hnot_b_n, if_neg hnot_b_c, if_pos ⟨rfl, rfl⟩]
  have hnew_other : ∀ a b : Int, ¬(a = next.1 ∧ b = next.2) →
      ¬(a = s.current.1 ∧ b = s.current.2) →
      ¬(a = s.current.1 + (next.1 - s.current.1) / 2 ∧
        b = s.current.2 + (next.2 - s.current.2) / 2) →
      (s.advance next).maze.cells a b = s.maze.cells a b := by
    intro a b h1 h2 h3
    rw [cells_advance, if_neg h1, if_neg h2, if_neg h3]
  have hvis_mono : ∀ a b : Int, (s.maze.cells a b).visited = true →
      ((s.advance next).maze.cells a b).visited = true := by
    intro a b hv
    rw [cells_advance]
    split_ifs <;> first | rfl | exact hv
  have hwall_mono : ∀ a b : Int, (s.maze.cells a b).wall = false →
      ((s.advance next).maze.cells a b).wall = false := by
    intro a b hv
    rw [cells_advance]
    split_ifs <;> first | rfl | exact hv
  have hadj_mono : ∀ u v : Int × Int, s.maze.passageAdj u v →
      (s.advance next).maze.passageAdj u v := by
    rintro u v ⟨⟨hu1, hu2⟩, ⟨hv1, hv2⟩, huv⟩
    exact ⟨⟨hu1, hwall_mono _ _ hu2⟩, ⟨hv1, hwall_mono _ _ hv2⟩, huv⟩
  -- the pillar invariant for the updated grid
  have hpillar : ∀ x y : Int, x % 2 = 0 → y % 2 = 0 →
      ((s.advance next).maze.cells x y).wall = true := by
    intro x y hx hy
    rw [cells_advance]
    split_ifs with e1 e2 e3
    · exfalso; omega
    · exfalso; omega
    · exfalso; rcases hbPar with hp | hp <;> omega
    · exact inv.pillar x y hx hy
  -- the flank invariants for the updated grid
  have hhflank : ∀ x y : Int, x % 2 = 0 → y % 2 = 1 →
      ((s.advance next).maze.cells x y).wall = false →
      (1 ≤ x ∧ x < s.maze.width - 1 ∧ 0 ≤ y ∧ y < s.maze.height) ∧
      (((s.advance next).maze.cells (x - 1) y).visited = true) ∧
      (((s.advance next).maze.cells (x + 1) y).visited = true) := by
    intro x y hx hy hwall
    rw [cells_advance] at hwall
    split_ifs at hwall with e1 e2 e3
    · exfalso; omega
    · exfalso; omega
    · rcases hD with h | h | h | h
      · exfalso; omega
      · refine ⟨⟨by omega, by omega, by omega, by omega⟩, ?_, ?_⟩
        · rw [show x - 1 = s.current.1 by omega, show y = s.current.2 by omega,
            hnew_c]
        · rw [show x + 1 = next.1 by omega, show y = next.2 by omega, hnew_n]
      · exfalso; omega
      · refine ⟨⟨by omega, by omega, by omega, by omega⟩, ?_, ?_⟩
        · rw [show x - 1 = next.1 by omega, show y = next.2 by omega, hnew_n]
        · rw [show x + 1 = s.current.1 by omega, show y = s.current.2 by omega,
            hnew_c]
    · obtain ⟨hbnd, hv1, hv2⟩ := inv.hflank x y hx hy hwall
      exact ⟨hbnd, hvis_mono _ _ hv1, hvis_mono _ _ hv2⟩
  have hvflank : ∀ x y : Int, x % 2 = 1 → y % 2 = 0 →
      ((s.advance next).maze.cells x y).wall = false →
      (0 ≤ x ∧ x < s.maze.width ∧ 1 ≤ y ∧ y < s.maze.height - 1) ∧
      (((s.advance next).maze.cells x (y - 1)).visited = true) ∧
      (((s.advance next).maze.cells x (y + 1)).visited = true) := by
    intro x y hx hy hwall
    rw [cells_advance] at hwall
    split_ifs at hwall with e1 e2 e3
    · exfalso; omega
    · exfalso; omega
    · rcases hD with h | h | h | h
      · refine ⟨⟨by omega, by omega, by omega, by omega⟩, ?_, ?_⟩
        · rw [show x = next.1 by omega, show y - 1 = next.2 by omega, hnew_n]
        · rw [show x = s.current.1 by omega, show y + 1 = s.current.2 by omega,
            hnew_c]
      · exfalso; omega
      · refine ⟨⟨by omega, by omega, by omega, by omega⟩, ?_, ?_⟩
        · rw [show x = s.current.1 by omega, show y - 1 = s.current.2 by omega,
            hnew_c]
        · rw [show x = next.1 by omega, show y + 1 = next.2 by omega, hnew_n]
      · exfalso; omega
    · obtain ⟨hbnd, hv1, hv2⟩ := inv.vflank x y hx hy hwall
      exact ⟨hbnd, hvis_mono _ _ hv1, hvis_mono _ _ hv2⟩
  -- passages and adjacencies of the pendant corridor
  have hpass_c : (s.advance next).maze.isPassage s.current := by
    refine ⟨⟨hcin1, hcin2, hcin3, hcin4⟩, ?_⟩
    rw [hnew_c]
  have hpass_n : (s.advance next).maze.isPassage next := by
    refine ⟨⟨hnin1, hnin2, hnin3, hnin4⟩, ?_⟩
    rw [hnew_n]
  have hpass_b : (s.advance next).maze.isPassage
      (s.current.1 + (next.1 - s.current.1) / 2,
       s.current.2 + (next.2 - s.current.2) / 2) := by
    refine ⟨⟨hbIn1, hbIn2, hbIn3, hbIn4⟩, ?_⟩
    rw [hnew_b]
  have hadj_cb : unitAdj s.current
      (s.current.1 + (next.1 - s.current.1) / 2,
       s.current.2 + (next.2 - s.current.2) / 2) := by
    unfold unitAdj
    rcases hD with h | h | h | h <;> omega
  have hadj_bn : unitAdj
      (s.current.1 + (next.1 - s.current.1) / 2,
       s.current.2 + (next.2 - s.current.2) / 2) next := by
    unfold unitAdj
    rcases hD with h | h | h | h <;> omega
  have hreach_c : (s.advance next).maze.reaches (1, 1) s.current := by
    have hold := inv.conn s.current ⟨hcin1, hcin2, hcin3, hcin4⟩ inv.curVis
    exact Relation.ReflTransGen.mono hadj_mono hold
  have hreach_b : (s.advance next).maze.reaches (1, 1)
      (s.current.1 + (next.1 - s.current.1) / 2,
       s.current.2 + (next.2 - s.current.2) / 2) :=
    hreach_c.tail ⟨hpass_c, hpass_b, hadj_cb⟩
  have hreach_n : (s.advance next).maze.reaches (1, 1) next := by
    refine hreach_b.tail ⟨hpass_b, hpass_n, hadj_bn⟩
  have hconn : ∀ p : Int × Int, (s.advance next).maze.inBounds p →
      ((s.advance next).maze.cells p.1 p.2).visited = true →
      (s.advance next).maze.reaches (1, 1) p := by
    intro p hin hvis
    rw [cells_advance] at hvis
    split_ifs at hvis with e1 e2 e3
    · rw [show p = next from Prod.ext e1.1 e1.2]
      exact hreach_n
    · rw [show p = s.current from Prod.ext e2.1 e2.2]
      exact hreach_c
    · rw [show p = (s.current.1 + (next.1 - s.current.1) / 2,
        s.current.2 + (next.2 - s.current.2) / 2) from Prod.ext e3.1 e3.2]
      exact hreach_b
    · exact Relation.ReflTransGen.mono hadj_mono (inv.conn p hin hvis)
  -- counting: one new visited lattice cell, one new cleared wall cell
  have hdom : (s.advance next).maze.domain = s.maze.domain := rfl
  have hvcc : (s.advance next).maze.visitedCellCount =
      s.maze.visitedCellCount + 1 := by
    unfold Maze.visitedCellCount
    rw [hdom]
    refine filter_card_succ s.maze.domain
      (fun p => cellPos p ∧ (s.maze.cells p.1 p.2).visited = true)
      (fun p => cellPos p ∧ ((s.advance next).maze.cells p.1 p.2).visited = true)
      next ((mem_domain _ _).mpr ⟨hnin1, hnin2, hnin3, hnin4⟩) ?_ ?_ ?_
    · intro a ha hane
      dsimp only
      rw [cells_advance]
      split_ifs with e1 e2 e3
      · exact absurd (Prod.ext e1.1 e1.2) hane
      · have : (s.maze.cells a.1 a.2).visited = true := by
          rw [e2.1, e2.2]; exact inv.curVis
        rw [this]
      · have hnc : ¬cellPos a := by
          unfold cellPos
          rcases hbPar with hp | hp <;> omega
        constructor
        · rintro ⟨hcp, -⟩; exact absurd hcp hnc
        · rintro ⟨hcp, -⟩; exact absurd hcp hnc
      · exact Iff.rfl
    · rintro ⟨-, hv⟩
      rw [hnVis0] at hv
      simp at hv
    · exact ⟨⟨hnOdd1, hnOdd2⟩, by rw [hnew_n]⟩
  have hcbc : (s.advance next).maze.clearedBridgeCount =
      s.maze.clearedBridgeCount + 1 := by
    unfold Maze.clearedBridgeCount
    rw [hdom]
    refine filter_card_succ s.maze.domain
      (fun p => bridgePos p ∧ (s.maze.cells p.1 p.2).wall = false)
      (fun p => bridgePos p ∧ ((s.advance next).maze.cells p.1 p.2).wall = false)
      (s.current.1 + (next.1 - s.current.1) / 2,
       s.current.2 + (next.2 - s.current.2) / 2)
      ((mem_domain _ _).mpr ⟨hbIn1, hbIn2, hbIn3, hbIn4⟩) ?_ ?_ ?_
    · intro a ha hane
      dsimp only
      rw [cells_advance]
      split_ifs with e1 e2 e3
      · have hnb : ¬bridgePos a := by
          unfold bridgePos
          omega
        constructor
        · rintro ⟨hcp, -⟩; exact absurd hcp hnb
        · rintro ⟨hcp, -⟩; exact absurd hcp hnb
      · have hnb : ¬bridgePos a := by
          unfold bridgePos
          omega
        constructor
        · rintro ⟨hcp, -⟩; exact absurd hcp hnb
        · rintro ⟨hcp, -⟩; exact absurd hcp hnb
      · exact absurd (Prod.ext e3.1 e3.2) hane
      · exact Iff.rfl
    · rintro ⟨-, hv⟩
      rw [hbWallOld] at hv
      simp at hv
    · refine ⟨?_, by rw [hnew_b]⟩
      unfold bridgePos
      rcases hbPar with hp | hp
      · right; exact ⟨hp.1, hp.2⟩
      · left; exact ⟨hp.1, hp.2⟩
  have hcount : (s.advance next).maze.clearedBridgeCount + 1 =
      (s.advance next).maze.visitedCellCount := by
    rw [hvcc, hcbc]
    have := inv.countEq
    omega
  -- old passages away from the pendant corridor
  have hold_pass : ∀ z : Int × Int, ¬(z.1 = next.1 ∧ z.2 = next.2) →
      ¬(z.1 = s.current.1 + (next.1 - s.current.1) / 2 ∧
        z.2 = s.current.2 + (next.2 - s.current.2) / 2) →
      (s.advance next).maze.isPassage z → s.maze.isPassage z := by
    rintro z hz1 hz2 ⟨hzin, hzw⟩
    refine ⟨hzin, ?_⟩
    rw [cells_advance, if_neg hz1] at hzw
    by_cases e2 : z.1 = s.current.1 ∧ z.2 = s.current.2
    · rw [e2.1, e2.2]
      exact hcurwall
    · rw [if_neg e2, if_neg hz2] at hzw
      exact hzw
  -- the only passage neighbor of `next` is the new wall cell
  have hA : ∀ z : Int × Int, (s.advance next).maze.isPassage z → unitAdj next z →
      z = (s.current.1 + (next.1 - s.current.1) / 2,
           s.current.2 + (next.2 - s.current.2) / 2) := by
    intro z hz hadjz
    unfold unitAdj at hadjz
    obtain ⟨hzin, hzw⟩ := hz
    rw [cells_advance] at hzw
    split_ifs at hzw with e1 e2 e3
    · exfalso
      rcases hadjz with ⟨h1, h2 | h2⟩ | ⟨h1, h2 | h2⟩ <;> omega
    · exfalso
      rcases hD with h | h | h | h <;>
        rcases hadjz with ⟨h1, h2 | h2⟩ | ⟨h1, h2 | h2⟩ <;> omega
    · exact Prod.ext e3.1 e3.2
    · exfalso
      rcases hadjz with ⟨h1, h2 | h2⟩ | ⟨h1, h2 | h2⟩
      · obtain ⟨-, hv1, -⟩ := inv.vflank z.1 z.2 (by omega) (by omega) hzw
        rw [show z.1 = next.1 by omega, show z.2 - 1 = next.2 by omega] at hv1
        rw [hnVis0] at hv1; simp at hv1
      · obtain ⟨-, -, hv2⟩ := inv.vflank z.1 z.2 (by omega) (by omega) hzw
        rw [show z.1 = next.1 by omega, show z.2 + 1 = next.2 by omega] at hv2
        rw [hnVis0] at hv2; simp at hv2
      · obtain ⟨-, hv1, -⟩ := inv.hflank z.1 z.2 (by omega) (by omega) hzw
        rw [show z.1 - 1 = next.1 by omega, show z.2 = next.2 by omega] at hv1
        rw [hnVis0] at hv1; simp at hv1
      · obtain ⟨-, -, hv2⟩ := inv.hflank z.1 z.2 (by omega) (by omega) hzw
        rw [show z.1 + 1 = next.1 by omega, show z.2 = next.2 by omega] at hv2
        rw [hnVis0] at hv2; simp at hv2
  -- the only passage neighbors of the new wall cell are current and next
  have hB : ∀ z : Int × Int, (s.advance next).maze.isPassage z →
      unitAdj (s.current.1 + (next.1 - s.current.1) / 2,
               s.current.2 + (next.2 - s.current.2) / 2) z →
      (z = s.current ∨ z = next) := by
    intro z hz hadjz
    unfold unitAdj at hadjz
    obtain ⟨hzin, hzw⟩ := hz
    have hpil : ∀ a b : Int, z.1 = a → z.2 = b → a % 2 = 0 → b % 2 = 0 → False := by
      intro a b hza hzb ha hb
      have hpw := hpillar z.1 z.2 (by omega) (by omega)
      rw [hpw] at hzw
      exact absurd hzw (by simp)
    rcases hD with h | h | h | h <;>
      rcases hadjz with ⟨h1, h2 | h2⟩ | ⟨h1, h2 | h2⟩
    · exact Or.inl (Prod.ext (by omega) (by omega))
    · exact Or.inr (Prod.ext (by omega) (by omega))
    · exact absurd (hpil z.1 z.2 rfl rfl (by omega) (by omega)) not_false
    · exact absurd (hpil z.1 z.2 rfl rfl (by omega) (by omega)) not_false
    · exact absurd (hpil z.1 z.2 rfl rfl (by omega) (by omega)) not_false
    · exact absurd (hpil z.1 z.2 rfl rfl (by omega) (by omega)) not_false
    · exact Or.inr (Prod.ext (by omega) (by omega))
    · exact Or.inl (Prod.ext (by omega) (by omega))
    · exact Or.inr (Prod.ext (by omega) (by omega))
    · exact Or.inl (Prod.ext (by omega) (by omega))
    · exact absurd (hpil z.1 z.2 rfl rfl (by omega) (by omega)) not_false
    · exact absurd (hpil z.1 z.2 rfl rfl (by omega) (by omega)) not_false
    · exact absurd (hpil z.1 z.2 rfl rfl (by omega) (by omega)) not_false
    · exact absurd (hpil z.1 z.2 rfl rfl (by omega) (by omega)) not_false
    · exact Or.inl (Prod.ext (by omega) (by omega))
    · exact Or.inr (Prod.ext (by omega) (by omega))
  -- adjacency characterization: the new graph is the old one plus the
  -- pendant corridor current - wall - next
  have hchar : ∀ p q : Int × Int, (s.advance next).maze.passageGraph.Adj p q ↔
      s.maze.passageGraph.Adj p q ∨
      (p = s.current ∧ q = (s.current.1 + (next.1 - s.current.1) / 2,
        s.current.2 + (next.2 - s.current.2) / 2)) ∨
      (p = (s.current.1 + (next.1 - s.current.1) / 2,
        s.current.2 + (next.2 - s.current.2) / 2) ∧ q = s.current) ∨
      (p = (s.current.1 + (next.1 - s.current.1) / 2,
        s.current.2 + (next.2 - s.current.2) / 2) ∧ q = next) ∨
      (p = next ∧ q = (s.current.1 + (next.1 - s.current.1) / 2,
        s.current.2 + (next.2 - s.current.2) / 2)) := by
    intro p q
    constructor
    · rintro ⟨hp, hq, hadj⟩
      by_cases hpn : p = next
      · subst hpn
        exact Or.inr (Or.inr (Or.inr (Or.inr ⟨rfl, hA q hq hadj⟩)))
      · by_cases hqn : q = next
        · subst hqn
          exact Or.inr (Or.inr (Or.inr (Or.inl ⟨hA p hp (unitAdj_symm hadj), rfl⟩)))
        · by_cases hpb : p = (s.current.1 + (next.1 - s.current.1) / 2,
              s.current.2 + (next.2 - s.current.2) / 2)
          · subst hpb
            rcases hB q hq hadj with h | h
            · exact Or.inr (Or.inr (Or.inl ⟨rfl, h⟩))
            · exact absurd h hqn
          · by_cases hqb : q = (s.current.1 + (next.1 - s.current.1) / 2,
                s.current.2 + (next.2 - s.current.2) / 2)
            · subst hqb
              rcases hB p hp (unitAdj_symm hadj) with h | h
              · exact Or.inr (Or.inl ⟨h, rfl⟩)
              · exact absurd h hpn
            · refine Or.inl ⟨hold_pass p ?_ ?_ hp, hold_pass q ?_ ?_ hq, hadj⟩
              · rintro ⟨e1, e2⟩; exact hpn (Prod.ext e1 e2)
              · rintro ⟨e1, e2⟩; exact hpb (Prod.ext e1 e2)
              · rintro ⟨e1, e2⟩; exact hqn (Prod.ext e1 e2)
              · rintro ⟨e1, e2⟩; exact hqb (Prod.ext e1 e2)
    · rintro (h | ⟨rfl, rfl⟩ | ⟨rfl, rfl⟩ | ⟨rfl, rfl⟩ | ⟨rfl, rfl⟩)
      · exact hadj_mono p q h
      · exact ⟨hpass_c, hpass_b, hadj_cb⟩
      · exact ⟨hpass_b, hpass_c, unitAdj_symm hadj_cb⟩
      · exact ⟨hpass_b, hpass_n, hadj_bn⟩
      · exact ⟨hpass_n, hpass_b, unitAdj_symm hadj_bn⟩
  have hbfresh : ∀ z : Int × Int, ¬s.maze.passageGraph.Adj
      (s.current.1 + (next.1 - s.current.1) / 2,
       s.current.2 + (next.2 - s.current.2) / 2) z := by
    rintro z ⟨hb', -, -⟩
    have := hb'.2
    rw [hbWallOld] at this
    exact absurd this (by simp)
  have hnfresh : ∀ z : Int × Int, ¬s.maze.passageGraph.Adj next z := by
    rintro z ⟨hn', -, -⟩
    have := hn'.2
    rw [hnWallOld] at this
    exact absurd this (by simp)
  have hpair_bn : ((s.current.1 + (next.1 - s.current.1) / 2,
      s.current.2 + (next.2 - s.current.2) / 2) : Int × Int) ≠ next := by
    intro he
    rcases hne_bn with hne | hne
    · exact hne (congrArg Prod.fst he)
    · exact hne (congrArg Prod.snd he)
  have hpair_cb : s.current ≠ ((s.current.1 + (next.1 - s.current.1) / 2,
      s.current.2 + (next.2 - s.current.2) / 2) : Int × Int) := by
    intro he
    rcases hne_bc with hne | hne
    · exact hne (congrArg Prod.fst he).symm
    · exact hne (congrArg Prod.snd he).symm
  have hpair_cn : s.current ≠ next := by
    intro he
    rcases hne_nc with hne | hne
    · exact hne (congrArg Prod.fst he).symm
    · exact hne (congrArg Prod.snd he).symm
  have hacyc : (s.advance next).maze.passageGraph.IsAcyclic :=
    pendant_acyclic inv.acyc hchar hbfresh hnfresh hpair_bn hpair_cb hpair_cn
  -- assemble the invariant
  refine ⟨?_, hpillar, ?_, ?_, ?_, ?_, ?_, ?_, hhflank, hvflank, hconn, hcount, hacyc⟩
  · intro x y
    rw [cells_advance]
    split_ifs <;> first | rfl | exact inv.visWall x y
  · exact ⟨hnOdd1, hnOdd2⟩
  · exact ⟨hnin1, hnin2, hnin3, hnin4⟩
  · show ((s.advance next).maze.cells next.1 next.2).visited = true
    rw [hnew_n]
  · intro q hq
    rcases List.mem_cons.mp hq with rfl | hq'
    · exact ⟨hc1odd, hc2odd⟩
    · exact inv.stackOdd q hq'
  · intro q hq
    rcases List.mem_cons.mp hq with rfl | hq'
    · exact ⟨hcin1, hcin2, hcin3, hcin4⟩
    · exact inv.stackIn q hq'
  · intro q hq
    rcases List.mem_cons.mp hq with rfl | hq'
    · show ((s.advance next).maze.cells s.current.1 s.current.2).visited = true
      rw [hnew_c]
    · exact hvis_mono q.1 q.2 (inv.stackVis q hq')

lemma rbInv_step (s : RBState) (r : Nat) (inv : RBInv s) :
    RBInv ((s.step r).2) := by
  by_cases hc : s.isComplete = true
  · rw [step_of_complete s r hc]; exact inv
  · rw [Bool.not_eq_true] at hc
    by_cases hn : 0 < (s.getUnvisitedNeighbors s.current.1 s.current.2).length
    · rw [step_snd_advance s r hc hn]
      exact rbInv_advance s _ inv (chosen_neighbor_mem s r hn)
    · have hn0 : (s.getUnvisitedNeighbors s.current.1 s.current.2).length = 0 := by
        omega
      cases hs : s.stack with
      | cons top rest =>
        rw [step_snd_backtrack s r top rest hc hn0 hs]
        exact rbInv_backtrack s top rest inv hs
      | nil =>
        rw [step_snd_finish s r hc hn0 hs]
        exact rbInv_finish s inv

lemma rbInv_run (s : RBState) (cs : List Nat) (inv : RBInv s) :
    RBInv (s.run cs) := by
  induction cs generalizing s with
  | nil => exact inv
  | cons r rest ih => exact ih _ (rbInv_step s r inv)

lemma bool_vis_of_wall {c : Cell} (h : c.visited = !c.wall) (hw : c.wall = false) :
    c.visited = true := by rw [h, hw]; rfl

lemma bool_wall_of_vis {c : Cell} (h : c.visited = !c.wall) (hv : c.visited = true) :
    c.wall = false := by
  cases hw : c.wall
  · rfl
  · rw [hw] at h; rw [h] at hv; simp at hv

lemma edgeCount_split (m : Maze) :
    m.edgeCount =
      (m.domain.filter fun p => m.isPassage p ∧ m.isPassage (p.1 + 1, p.2)).card +
      (m.domain.filter fun p => m.isPassage p ∧ m.isPassage (p.1, p.2 + 1)).card := by
  unfold Maze.edgeCount
  rw [Finset.sum_add_distrib]
  congr 1 <;> simp [Finset.sum_boole]

lemma horiz_edge_card (m : Maze)
    (hpillar : ∀ x y : Int, x % 2 = 0 → y % 2 = 0 → (m.cells x y).wall = true)
    (hvw : ∀ x y : Int, (m.cells x y).visited = !(m.cells x y).wall)
    (hhf : ∀ x y : Int, x % 2 = 0 → y % 2 = 1 → (m.cells x y).wall = false →
      (1 ≤ x ∧ x < m.width - 1 ∧ 0 ≤ y ∧ y < m.height) ∧
      (m.cells (x - 1) y).visited = true ∧ (m.cells (x + 1) y).visited = true) :
    (m.domain.filter fun p => m.isPassage p ∧ m.isPassage (p.1 + 1, p.2)).card =
      2 * (m.domain.filter fun p =>
        p.1 % 2 = 0 ∧ p.2 % 2 = 1 ∧ (m.cells p.1 p.2).wall = false).card := by
  have hsplit := Finset.filter_union_filter_neg_eq
    (fun p : Int × Int => p.1 % 2 = 0)
    (m.domain.filter fun p => m.isPassage p ∧ m.isPassage (p.1 + 1, p.2))
  have hdisj := Finset.disjoint_filter_filter_neg
    (m.domain.filter fun p => m.isPassage p ∧ m.isPassage (p.1 + 1, p.2))
    (m.domain.filter fun p => m.isPassage p ∧ m.isPassage (p.1 + 1, p.2))
    (fun p : Int × Int => p.1 % 2 = 0)
  have hcard : (m.domain.filter fun p => m.isPassage p ∧ m.isPassage (p.1 + 1, p.2)).card
      = ((m.domain.filter fun p => m.isPassage p ∧ m.isPassage (p.1 + 1, p.2)).filter
          (fun p : Int × Int => p.1 % 2 = 0)).card +
        ((m.domain.filter fun p => m.isPassage p ∧ m.isPassage (p.1 + 1, p.2)).filter
          (fun p : Int × Int => ¬p.1 % 2 = 0)).card := by
    rw [← Finset.card_union_of_disjoint hdisj, hsplit]
  -- the even-x part is exactly the cleared horizontal bridges
  have hA : ((m.domain.filter fun p => m.isPassage p ∧ m.isPassage (p.1 + 1, p.2)).filter
      (fun p : Int × Int => p.1 % 2 = 0)) =
      (m.domain.filter fun p =>
        p.1 % 2 = 0 ∧ p.2 % 2 = 1 ∧ (m.cells p.1 p.2).wall = false) := by
    ext p
    simp only [Finset.mem_filter]
    constructor
    · rintro ⟨⟨hdom, ⟨hin1, hw1⟩, hp2⟩, heven⟩
      have hodd : p.2 % 2 = 1 := by
        by_contra hne
        have : p.2 % 2 = 0 := by omega
        have := hpillar p.1 p.2 heven this
        rw [this] at hw1
        exact absurd hw1 (by simp)
      exact ⟨hdom, heven, hodd, hw1⟩
    · rintro ⟨hdom, heven, hodd, hwall⟩
      obtain ⟨⟨hb1, hb2, hb3, hb4⟩, hv1, hv2⟩ := hhf p.1 p.2 heven hodd hwall
      have hin : m.inBounds p := ⟨by omega, by omega, by omega, by omega⟩
      refine ⟨⟨hdom, ⟨hin, hwall⟩, ?_⟩, heven⟩
      refine ⟨⟨by omega, by omega, by omega, by omega⟩, ?_⟩
      exact bool_wall_of_vis (hvw (p.1 + 1) p.2) hv2
  -- the odd-x part maps bijectively onto the cleared horizontal bridges
  have hB : ((m.domain.filter fun p => m.isPassage p ∧ m.isPassage (p.1 + 1, p.2)).filter
      (fun p : Int × Int => ¬p.1 % 2 = 0)).card =
      (m.domain.filter fun p =>
        p.1 % 2 = 0 ∧ p.2 % 2 = 1 ∧ (m.cells p.1 p.2).wall = false).card := by
    refine Finset.card_bij (fun p _ => (p.1 + 1, p.2)) ?_ ?_ ?_
    · intro p hp
      simp only [Finset.mem_filter] at hp ⊢
      obtain ⟨⟨hdom, ⟨hin1, hw1⟩, ⟨hin2, hw2⟩⟩, hodd⟩ := hp
      have heven : (p.1 + 1) % 2 = 0 := by omega
      have hodd2 : p.2 % 2 = 1 := by
        by_contra hne
        have he2 : p.2 % 2 = 0 := by omega
        have := hpillar (p.1 + 1) p.2 heven he2
        rw [this] at hw2
        exact absurd hw2 (by simp)
      exact ⟨(mem_domain _ _).mpr hin2, heven, hodd2, hw2⟩
    · intro p hp q hq he
      simp only [Prod.mk.injEq] at he
      exact Prod.ext (by omega) he.2
    · intro b hb
      simp only [Finset.mem_filter] at hb
      obtain ⟨hdom, heven, hodd, hwall⟩ := hb
      obtain ⟨⟨hb1, hb2, hb3, hb4⟩, hv1, hv2⟩ := hhf b.1 b.2 heven hodd hwall
      refine ⟨(b.1 - 1, b.2), ?_, ?_⟩
      · simp only [Finset.mem_filter]
        refine ⟨⟨?_, ?_, ?_⟩, ?_⟩
        · exact (mem_domain _ _).mpr ⟨by omega, by omega, by omega, by omega⟩
        · exact ⟨⟨by omega, by omega, by omega, by omega⟩,
            bool_wall_of_vis (hvw (b.1 - 1) b.2) hv1⟩
        · show m.isPassage (b.1 - 1 + 1, b.2)
          rw [show b.1 - 1 + 1 = b.1 by omega]
          exact ⟨⟨by omega, by omega, by omega, by omega⟩, hwall⟩
        · show ¬(b.1 - 1) % 2 = 0
          omega
      · show ((b.1 - 1 + 1, b.2) : Int × Int) = b
        exact Prod.ext (by omega) rfl
  rw [hcard, hA, hB]
  omega

lemma vert_edge_card (m : Maze)
    (hpillar : ∀ x y : Int, x % 2 = 0 → y % 2 = 0 → (m.cells x y).wall = true)
    (hvw : ∀ x y : Int, (m.cells x y).visited = !(m.cells x y).wall)
    (hvf : ∀ x y : Int, x % 2 = 1 → y % 2 = 0 → (m.cells x y).wall = false →
      (0 ≤ x ∧ x < m.width ∧ 1 ≤ y ∧ y < m.height - 1) ∧
      (m.cells x (y - 1)).visited = true ∧ (m.cells x (y + 1)).visited = true) :
    (m.domain.filter fun p => m.isPassage p ∧ m.isPassage (p.1, p.2 + 1)).card =
      2 * (m.domain.filter fun p =>
        p.1 % 2 = 1 ∧ p.2 % 2 = 0 ∧ (m.cells p.1 p.2).wall = false).card := by
  have hsplit := Finset.filter_union_filter_neg_eq
    (fun p : Int × Int => p.2 % 2 = 0)
    (m.domain.filter fun p => m.isPassage p ∧ m.isPassage (p.1, p.2 + 1))
  have hdisj := Finset.disjoint_filter_filter_neg
    (m.domain.filter fun p => m.isPassage p ∧ m.isPassage (p.1, p.2 + 1))
    (m.domain.filter fun p => m.isPassage p ∧ m.isPassage (p.1, p.2 + 1))
    (fun p : Int × Int => p.2 % 2 = 0)
  have hcard : (m.domain.filter fun p => m.isPassage p ∧ m.isPassage (p.1, p.2 + 1)).card
      = ((m.domain.filter fun p => m.isPassage p ∧ m.isPassage (p.1, p.2 + 1)).filter
          (fun p : Int × Int => p.2 % 2 = 0)).card +
        ((m.domain.filter fun p => m.isPassage p ∧ m.isPassage (p.1, p.2 + 1)).filter
          (fun p : Int × Int => ¬p.2 % 2 = 0)).card := by
    rw [← Finset.card_union_of_disjoint hdisj, hsplit]
  have hA : ((m.domain.filter fun p => m.isPassage p ∧ m.isPassage (p.1, p.2 + 1)).filter
      (fun p : Int × Int => p.2 % 2 = 0)) =
      (m.domain.filter fun p =>
        p.1 % 2 = 1 ∧ p.2 % 2 = 0 ∧ (m.cells p.1 p.2).wall = false) := by
    ext p
    simp only [Finset.mem_filter]
    constructor
    · rintro ⟨⟨hdom, ⟨hin1, hw1⟩, hp2⟩, heven⟩
      have hodd : p.1 % 2 = 1 := by
        by_contra hne
        have : p.1 % 2 = 0 := by omega
        have := hpillar p.1 p.2 this heven
        rw [this] at hw1
        exact absurd hw1 (by simp)
      exact ⟨hdom, hodd, heven, hw1⟩
    · rintro ⟨hdom, hodd, heven, hwall⟩
      obtain ⟨⟨hb1, hb2, hb3, hb4⟩, hv1, hv2⟩ := hvf p.1 p.2 hodd heven hwall
      have hin : m.inBounds p := ⟨by omega, by omega, by omega, by omega⟩
      refine ⟨⟨hdom, ⟨hin, hwall⟩, ?_⟩, heven⟩
      refine ⟨⟨by omega, by omega, by omega, by omega⟩, ?_⟩
      exact bool_wall_of_vis (hvw p.1 (p.2 + 1)) hv2
  have hB : ((m.domain.filter fun p => m.isPassage p ∧ m.isPassage (p.1, p.2 + 1)).filter
      (fun p : Int × Int => ¬p.2 % 2 = 0)).card =
      (m.domain.filter fun p =>
        p.1 % 2 = 1 ∧ p.2 % 2 = 0 ∧ (m.cells p.1 p.2).wall = false).card := by
    refine Finset.card_bij (fun p _ => (p.1, p.2 + 1)) ?_ ?_ ?_
    · intro p hp
      simp only [Finset.mem_filter] at hp ⊢
      obtain ⟨⟨hdom, ⟨hin1, hw1⟩, ⟨hin2, hw2⟩⟩, hodd⟩ := hp
      have heven : (p.2 + 1) % 2 = 0 := by omega
      have hodd2 : p.1 % 2 = 1 := by
        by_contra hne
        have he2 : p.1 % 2 = 0 := by omega
        have := hpillar p.1 (p.2 + 1) he2 heven
        rw [this] at hw2
        exact absurd hw2 (by simp)
      exact ⟨(mem_domain _ _).mpr hin2, hodd2, heven, hw2⟩
    · intro p hp q hq he
      simp only [Prod.mk.injEq] at he
      exact Prod.ext he.1 (by omega)
    · intro b hb
      simp only [Finset.mem_filter] at hb
      obtain ⟨hdom, hodd, heven, hwall⟩ := hb
      obtain ⟨⟨hb1, hb2, hb3, hb4⟩, hv1, hv2⟩ := hvf b.1 b.2 hodd heven hwall
      refine ⟨(b.1, b.2 - 1), ?_, ?_⟩
      · simp only [Finset.mem_filter]
        refine ⟨⟨?_, ?_, ?_⟩, ?_⟩
        · exact (mem_domain _ _).mpr ⟨by omega, by omega, by omega, by omega⟩
        · exact ⟨⟨by omega, by omega, by omega, by omega⟩,
            bool_wall_of_vis (hvw b.1 (b.2 - 1)) hv1⟩
        · show m.isPassage (b.1, b.2 - 1 + 1)
          rw [show b.2 - 1 + 1 = b.2 by omega]
          exact ⟨⟨by omega, by omega, by omega, by omega⟩, hwall⟩
        · show ¬(b.2 - 1) % 2 = 0
          omega
      · show ((b.1, b.2 - 1 + 1) : Int × Int) = b
        exact Prod.ext rfl (by omega)
  rw [hcard, hA, hB]
  omega

lemma clearedBridgeCount_split (m : Maze) :
    m.clearedBridgeCount =
      (m.domain.filter fun p =>
        p.1 % 2 = 0 ∧ p.2 % 2 = 1 ∧ (m.cells p.1 p.2).wall = false).card +
      (m.domain.filter fun p =>
        p.1 % 2 = 1 ∧ p.2 % 2 = 0 ∧ (m.cells p.1 p.2).wall = false).card := by
  unfold Maze.clearedBridgeCount
  have hsplit : (m.domain.filter fun p =>
      bridgePos p ∧ (m.cells p.1 p.2).wall = false) =
      (m.domain.filter fun p =>
        p.1 % 2 = 0 ∧ p.2 % 2 = 1 ∧ (m.cells p.1 p.2).wall = false) ∪
      (m.domain.filter fun p =>
        p.1 % 2 = 1 ∧ p.2 % 2 = 0 ∧ (m.cells p.1 p.2).wall = false) := by
    ext p
    simp only [Finset.mem_filter, Finset.mem_union]
    unfold bridgePos
    constructor
    · rintro ⟨hdom, hbp | hbp, hw⟩
      · exact Or.inl ⟨hdom, hbp.1, hbp.2, hw⟩
      · exact Or.inr ⟨hdom, hbp.1, hbp.2, hw⟩
    · rintro (⟨hdom, h1, h2, hw⟩ | ⟨hdom, h1, h2, hw⟩)
      · exact ⟨hdom, Or.inl ⟨h1, h2⟩, hw⟩
      · exact ⟨hdom, Or.inr ⟨h1, h2⟩, hw⟩
  rw [hsplit, Finset.card_union_of_disjoint]
  rw [Finset.disjoint_left]
  intro p hp1 hp2
  simp only [Finset.mem_filter] at hp1 hp2
  omega

lemma edgeCount_eq_twice (m : Maze)
    (hpillar : ∀ x y : Int, x % 2 = 0 → y % 2 = 0 → (m.cells x y).wall = true)
    (hvw : ∀ x y : Int, (m.cells x y).visited = !(m.cells x y).wall)
    (hhf : ∀ x y : Int, x % 2 = 0 → y % 2 = 1 → (m.cells x y).wall = false →
      (1 ≤ x ∧ x < m.width - 1 ∧ 0 ≤ y ∧ y < m.height) ∧
      (m.cells (x - 1) y).visited = true ∧ (m.cells (x + 1) y).visited = true)
    (hvf : ∀ x y : Int, x % 2 = 1 → y % 2 = 0 → (m.cells x y).wall = false →
      (0 ≤ x ∧ x < m.width ∧ 1 ≤ y ∧ y < m.height - 1) ∧
      (m.cells x (y - 1)).visited = true ∧ (m.cells x (y + 1)).visited = true) :
    m.edgeCount = 2 * m.clearedBridgeCount := by
  rw [edgeCount_split, horiz_edge_card m hpillar hvw hhf,
    vert_edge_card m hpillar hvw hvf, clearedBridgeCount_split]
  omega

lemma visitedCount_split (m : Maze)
    (hpillar : ∀ x y : Int, x % 2 = 0 → y % 2 = 0 → (m.cells x y).wall = true)
    (hvw : ∀ x y : Int, (m.cells x y).visited = !(m.cells x y).wall) :
    m.visitedCount = m.visitedCellCount + m.clearedBridgeCount := by
  unfold Maze.visitedCount Maze.visitedCellCount Maze.clearedBridgeCount
  have hsplit : (m.domain.filter fun p => (m.cells p.1 p.2).visited = true) =
      (m.domain.filter fun p => cellPos p ∧ (m.cells p.1 p.2).visited = true) ∪
      (m.domain.filter fun p => bridgePos p ∧ (m.cells p.1 p.2).wall = false) := by
    ext p
    simp only [Finset.mem_filter, Finset.mem_union]
    constructor
    · rintro ⟨hdom, hv⟩
      have hw : (m.cells p.1 p.2).wall = false := bool_wall_of_vis (hvw p.1 p.2) hv
      by_cases h1 : p.1 % 2 = 1
      · by_cases h2 : p.2 % 2 = 1
        · exact Or.inl ⟨hdom, ⟨h1, h2⟩, hv⟩
        · exact Or.inr ⟨hdom, Or.inr ⟨h1, by omega⟩, hw⟩
      · by_cases h2 : p.2 % 2 = 1
        · exact Or.inr ⟨hdom, Or.inl ⟨by omega, h2⟩, hw⟩
        · exfalso
          have := hpillar p.1 p.2 (by omega) (by omega)
          rw [this] at hw
          exact absurd hw (by simp)
    · rintro (⟨hdom, -, hv⟩ | ⟨hdom, -, hw⟩)
      · exact ⟨hdom, hv⟩
      · exact ⟨hdom, bool_vis_of_wall (hvw p.1 p.2) hw⟩
  rw [hsplit, Finset.card_union_of_disjoint]
  rw [Finset.disjoint_left]
  intro p hp1 hp2
  simp only [Finset.mem_filter] at hp1 hp2
  unfold cellPos at hp1
  unfold bridgePos at hp2
  omega

/-! ## Claim theorems -/

/-- C1: for every odd width and height (at least 3, so the start cell exists)
and every sequence of random neighbor choices, when the recursive-backtracking
run from `initialize()` has set `isComplete`, the resulting passage subgraph
is connected over all visited cells (flood fill from the start reaches every
visited cell), its edge count equals `visitedCells - 1`, it is acyclic, and
exactly one simple path joins any two passage cells. -/
theorem c1_recursive_backtracking_perfect_maze
    (w h : Int) (hw : 3 ≤ w) (hh : 3 ≤ h)
    (hwodd : w % 2 = 1) (hhodd : h % 2 = 1) (cs : List Nat)
    (hdone : ((initState w h).run cs).isComplete = true) :
    (∀ p : Int × Int, ((initState w h).run cs).maze.isVisited p →
      ((initState w h).run cs).maze.reaches (1, 1) p) ∧
    ((initState w h).run cs).maze.edgeCount + 1 =
      ((initState w h).run cs).maze.visitedCount ∧
    ((initState w h).run cs).maze.passageGraph.IsAcyclic ∧
    (∀ p q : Int × Int, ((initState w h).run cs).maze.isPassage p →
      ((initState w h).run cs).maze.isPassage q →
      ∃! pa : ((initState w h).run cs).maze.passageGraph.Path p q, True) := by
  have inv := rbInv_run (initState w h) cs (rbInv_initState w h (by omega) (by omega))
  refine ⟨?_, ?_, inv.acyc, ?_⟩
  · intro p hp
    exact inv.conn p hp.1 hp.2
  · rw [visitedCount_split _ inv.pillar inv.visWall,
      edgeCount_eq_twice _ inv.pillar inv.visWall inv.hflank inv.vflank]
    have := inv.countEq
    omega
  · intro p q hp hq
    have hvp : (((initState w h).run cs).maze.cells p.1 p.2).visited = true :=
      bool_vis_of_wall (inv.visWall p.1 p.2) hp.2
    have hvq : (((initState w h).run cs).maze.cells q.1 q.2).visited = true :=
      bool_vis_of_wall (inv.visWall q.1 q.2) hq.2
    have hrp := inv.conn p hp.1 hvp
    have hrq := inv.conn q hq.1 hvq
    have hreachp : ((initState w h).run cs).maze.passageGraph.Reachable (1, 1) p :=
      (SimpleGraph.reachable_iff_reflTransGen _ _).mpr hrp
    have hreachq : ((initState w h).run cs).maze.passageGraph.Reachable (1, 1) q :=
      (SimpleGraph.reachable_iff_reflTransGen _ _).mpr hrq
    have hpq : ((initState w h).run cs).maze.passageGraph.Reachable p q :=
      hreachp.symm.trans hreachq
    obtain ⟨wk⟩ := hpq
    exact ⟨wk.toPath, trivial, fun y _ => inv.acyc.path_unique y wk.toPath⟩

/-- C1 witness: the 3×3 instance, completed by a single step. -/
theorem c1_witness :
    ((initState 3 3).run [0]).isComplete = true ∧
    ((initState 3 3).run [0]).maze.edgeCount + 1 =
      ((initState 3 3).run [0]).maze.visitedCount ∧
    ((initState 3 3).run [0]).maze.passageGraph.IsAcyclic := by
  have hx := c1_recursive_backtracking_perfect_maze 3 3 (by norm_num) (by norm_num)
    (by decide) (by decide) [0] (by decide)
  exact ⟨by decide, hx.2.1, hx.2.2.1⟩

/-- C2: in every reachable state of a recursive-backtracking run — after
`initialize()` and after each `step()` — exactly one grid cell is marked
current while `isComplete` is false, and no cell is marked current once
`isComplete` is true. -/
theorem c2_exactly_one_current (w h : Int) (hw : 1 < w) (hh : 1 < h)
    (cs : List Nat) :
    (((initState w h).run cs).isComplete = false →
      ∃! p : Int × Int, ((initState w h).run cs).maze.inBounds p ∧
        (((initState w h).run cs).maze.cells p.1 p.2).current = true) ∧
    (((initState w h).run cs).isComplete = true →
      ∀ p : Int × Int,
        (((initState w h).run cs).maze.cells p.1 p.2).current = false) := by
  have inv := curInv_run (initState w h) cs (curInv_initState w h hw hh)
  constructor
  · intro hnc
    refine ⟨((initState w h).run cs).current, ⟨inv.curIn, ?_⟩, ?_⟩
    · exact (inv.curMark _ _).mpr ⟨hnc, rfl, rfl⟩
    · rintro y ⟨hyin, hyc⟩
      obtain ⟨-, h1, h2⟩ := (inv.curMark y.1 y.2).mp hyc
      exact Prod.ext h1 h2
  · intro hc p
    cases hv : (((initState w h).run cs).maze.cells p.1 p.2).current
    · rfl
    · obtain ⟨hfalse, -⟩ := (inv.curMark p.1 p.2).mp hv
      rw [hc] at hfalse
      exact absurd hfalse (by simp)

/-- C2 witness: the freshly initialized 3×3 run has exactly one current
cell. -/
theorem c2_witness :
    ∃! p : Int × Int, (initState 3 3).maze.inBounds p ∧
      ((initState 3 3).maze.cells p.1 p.2).current = true := by
  have hx := (c2_exactly_one_current 3 3 (by norm_num) (by norm_num) []).1
    (by decide)
  exact hx

/-- C3: once `isComplete` is true, every further `step()` call returns the
same terminal record (complete with the same current cell) and leaves the
state — in particular every grid cell — unchanged. -/
theorem c3_step_idempotent_after_completion (s : RBState) (r : Nat)
    (h : s.isComplete = true) :
    (s.step r).1.complete = true ∧ (s.step r).1.current = s.current ∧
    (s.step r).2 = s ∧
    (∀ x y : Int, (s.step r).2.maze.cells x y = s.maze.cells x y) := by
  rw [step_of_complete s r h]
  exact ⟨rfl, rfl, rfl, fun x y => rfl⟩

/-- C3 witness: a completed 3×3 run stepped once more is unchanged. -/
theorem c3_witness :
    (((initState 3 3).run [0]).step 5).2 = (initState 3 3).run [0] ∧
    (((initState 3 3).run [0]).step 5).1.complete = true := by
  have hx := c3_step_idempotent_after_completion ((initState 3 3).run [0]) 5
    (by decide)
  exact ⟨hx.2.2.1, hx.1⟩

/-- C4 counterexample: on a 5×5 grid the first `step()` does *not* complete
the run — the start cell has two in-bounds unvisited distance-2 neighbors —
refuting the claim that a 5×5 run terminates in exactly one step. -/
theorem c4_counterexample :
    (((initState 5 5).step 0).2).isComplete = false ∧
    ((initState 5 5).getUnvisitedNeighbors 1 1).length = 2 := by decide

/-- C4 amended: on a 3×3 grid (the smallest odd size, whose single lattice
cell is the start), the run from (1,1) terminates in exactly one `step()`
call for every random choice: the start cell is marked path and `isComplete`
becomes true, because no unvisited distance-2 neighbor lies in bounds. -/
theorem c4_amended_3x3 (r : Nat) :
    (initState 3 3).isComplete = false ∧
    (((initState 3 3).step r).2).isComplete = true ∧
    (((initState 3 3).step r).2).maze.cells 1 1 =
      ⟨false, true, false, true⟩ ∧
    (((initState 3 3).step r).2).stepCount = 1 ∧
    (initState 3 3).getUnvisitedNeighbors 1 1 = [] := by
  have hstep := step_snd_finish (initState 3 3) r (by decide) (by decide)
    (by decide)
  refine ⟨rfl, ?_, ?_, ?_, by decide⟩ <;> rw [hstep] <;> decide

/-- C5 counterexample: a `step()` call made after completion returns a record
with no `step`/`stackSize` fields (the early return carries only `complete`
and `current`), refuting the claim that every call returns all four fields. -/
theorem c5_counterexample :
    (((initState 3 3).run [0]).step 0).1.stackSize = none ∧
    (((initState 3 3).run [0]).step 0).1.step = none := by decide

/-- C5 amended: a `step()` call on a non-complete state returns a record with
the four fields `complete`, `current`, `step` (the running step count — the
field is named `step`, not `stepCount`) and `stackSize`; a call made after
completion returns only `{complete, current}`. -/
theorem c5_step_record_fields (s : RBState) (r : Nat) :
    (s.isComplete = false →
      (s.step r).1 = { complete := (s.step r).2.isComplete,
                       current := (s.step r).2.current,
                       step := some (s.step r).2.stepCount,
                       stackSize := some (s.step r).2.stack.length }) ∧
    (s.isComplete = true →
      (s.step r).1 = { complete := true, current := s.current,
                       step := none, stackSize := none }) := by
  constructor
  · intro hc
    exact step_fst_of_not_complete s r hc
  · intro hc
    rw [step_of_complete s r hc]

/-- C5 witness: the first 3×3 step returns the full four-field record. -/
theorem c5_witness :
    ((initState 3 3).step 0).1 =
      { complete := true, current := (1, 1), step := some 1,
        stackSize := some 0 : StepResult } := by
  have hx := (c5_step_record_fields (initState 3 3) 0).1 (by decide)
  rw [hx]
  decide

/-- C6: `isValidCoordinate(x, y, width, height)` returns true exactly when
`0 ≤ x < width` and `0 ≤ y < height`, and `getUnvisitedNeighbors` yields only
in-bounds coordinates — out-of-bounds candidates are silently excluded. -/
theorem c6_bounds_guard :
    (∀ x y w h : Int, MazeUtils.isValidCoordinate x y w h = true ↔
      (0 ≤ x ∧ x < w ∧ 0 ≤ y ∧ y < h)) ∧
    (∀ (s : RBState) (x y : Int) (d : Int × Int),
      d ∈ s.getUnvisitedNeighbors x y →
      MazeUtils.isValidCoordinate d.1 d.2 s.maze.width s.maze.height = true) := by
  constructor
  · exact isValidCoordinate_iff
  · intro s x y d hd
    obtain ⟨-, hin, -⟩ := mem_getUnvisitedNeighbors.mp hd
    rw [isValidCoordinate_iff]
    exact ⟨hin.1, hin.2.1, hin.2.2.1, hin.2.2.2⟩

/-- C6 witness: the neighbor (3,1) produced on the 5×5 grid is in bounds. -/
theorem c6_witness :
    MazeUtils.isValidCoordinate ((3, 1) : Int × Int).1 ((3, 1) : Int × Int).2
      (initState 5 5).maze.width (initState 5 5).maze.height = true :=
  c6_bounds_guard.2 (initState 5 5) 1 1 (3, 1) (by decide)

/-- C7: during `generate(progressCallback, speed)`, the callback is invoked
once per `step()` iteration, and the i-th invocation (counting from zero)
reports `percentage = stepsProcessed / floor(width*height/4) * 100` with
`stepsProcessed = i + 1`, the iterations performed so far (exact rational
arithmetic). -/
theorem c7_progress_percentage (w h : Int) (cs : List Nat) (i : Nat)
    (hi : i < (genTrace (initState w h) cs 0).length) :
    ((genTrace (initState w h) cs 0).getD i defaultEvent).percentage =
      (((i + 1 : Nat) : Rat) / ((w * h / 4 : Int) : Rat)) * 100 := by
  have hx := (genTrace_spec cs (initState w h) 0 i hi).1
  have harith : 0 + i + 1 = i + 1 := by omega
  rw [harith] at hx
  exact hx

/-- C7 witness: on a 3×3 run the single progress event reports 50%
(1 processed over floor(9/4) = 2 target cells). -/
theorem c7_witness :
    (genTrace (initState 3 3) [0] 0).length = 1 ∧
    ((genTrace (initState 3 3) [0] 0).getD 0 defaultEvent).percentage = 50 := by
  refine ⟨by decide, ?_⟩
  have hx := c7_progress_percentage 3 3 [0] 0 (by decide)
  rw [hx]
  norm_num

/-- C8: each `step()` on a non-complete state increases `stepCount` by
exactly one, so successive progress events of a single `generate()` run carry
strictly increasing step counts. -/
theorem c8_monotone_step_counts :
    (∀ (s : RBState) (r : Nat), s.isComplete = false →
      (s.step r).2.stepCount = s.stepCount + 1) ∧
    (∀ (w h : Int) (cs : List Nat) (i j : Nat), i < j →
      j < (genTrace (initState w h) cs 0).length →
      ((genTrace (initState w h) cs 0).getD i defaultEvent).stepCount <
      ((genTrace (initState w h) cs 0).getD j defaultEvent).stepCount) := by
  constructor
  · exact stepCount_step
  · intro w h cs i j hij hj
    have hi : i < (genTrace (initState w h) cs 0).length := lt_trans hij hj
    have h1 := (genTrace_spec cs (initState w h) 0 i hi).2
    have h2 := (genTrace_spec cs (initState w h) 0 j hj).2
    rw [h1, h2, initState_stepCount]
    omega

/-- C8 witness: the first two progress events of a 5×5 run carry step counts
1 < 2. -/
theorem c8_witness :
    ((genTrace (initState 5 5) [0, 0] 0).getD 0 defaultEvent).stepCount <
    ((genTrace (initState 5 5) [0, 0] 0).getD 1 defaultEvent).stepCount :=
  c8_monotone_step_counts.2 5 5 [0, 0] 0 1 (by norm_num) (by decide)

/-- C9 counterexample: `fitCameraToMaze` does modify a nested configuration
value — with a 31×31 maze it rewrites `threeD.cameraDistance` (the scene's
`config` aliases the nested `MazeConfig.threeD` object, which the shallow
`Object.freeze` leaves mutable), refuting the claim that no operation
modifies any configuration value. -/
theorem c9_counterexample :
    (fitCameraToMaze { maze := some (freshMaze 31 31), hasCamera := true,
                       config := defaultThreeD }).config.cameraDistance ≠
      defaultThreeD.cameraDistance := by
  intro he
  have h2 : (((max (31 : Int) 31 : Int) : Rat) * (4 : Rat) * (4 / 5)) =
      (50 : Rat) := he
  rw [max_self] at h2
  norm_num at h2

/-- C9 amended: the configuration is only shallow-frozen:
`Object.freeze(window.MazeConfig)` does not freeze nested objects, and
`MazeScene3D.fitCameraToMaze` (when maze and camera exist) writes
`max(width, height) * cellSize * 0.8` into the shared
`MazeConfig.threeD.cameraDistance`, leaving every other configuration value
unchanged. -/
theorem c9_fit_camera_mutates_camera_distance (sc : SceneState) (mz : Maze)
    (hm : sc.maze = some mz) (hc : sc.hasCamera = true) :
    (fitCameraToMaze sc).config.cameraDistance =
      ((max mz.width mz.height : Int) : Rat) * sc.config.cellSize * (4 / 5) ∧
    (fitCameraToMaze sc).config.wallHeight = sc.config.wallHeight ∧
    (fitCameraToMaze sc).config.cellSize = sc.config.cellSize ∧
    (fitCameraToMaze sc).config.playerHeight = sc.config.playerHeight ∧
    (fitCameraToMaze sc).config.lightIntensity = sc.config.lightIntensity ∧
    (fitCameraToMaze sc).config.enableShadows = sc.config.enableShadows ∧
    (fitCameraToMaze sc).config.fogDensity = sc.config.fogDensity ∧
    (fitCameraToMaze sc).config.renderDistance = sc.config.renderDistance := by
  unfold fitCameraToMaze
  rw [hm]
  simp [hc]

/-- C9 witness: the default configuration's camera distance becomes
31 * 4 * 0.8 = 99.2 after fitting a 31×31 maze. -/
theorem c9_witness :
    (fitCameraToMaze { maze := some (freshMaze 31 31), hasCamera := true,
                       config := defaultThreeD }).config.cameraDistance = 496 / 5 := by
  have hx := (c9_fit_camera_mutates_camera_distance
    { maze := some (freshMaze 31 31), hasCamera := true,
      config := defaultThreeD } (freshMaze 31 31) rfl rfl).1
  rw [hx]
  show (((max (31 : Int) 31 : Int) : Rat) * (4 : Rat) * (4 / 5)) = 496 / 5
  rw [max_self]
  norm_num

/-- C10: `emit` invokes every listener subscribed to the event at the moment
of emission exactly once, in subscription order; the invocation log pairs
each listener's id with the exception it threw, and later listeners run even
when earlier ones throw or unsubscribe — `emit` itself always returns. -/
theorem c10_emit_invokes_all_listeners {α ε : Type} (bus : EventBusM α ε)
    (event : String) (data : α) (ls : List (BusListener α ε))
    (hls : bus.events.lookup event = some ls) :
    (bus.emit event data).2 = (ls.map fun l => (l.id, (l.run data).2)) ∧
    (bus.emit event data).2.length = ls.length := by
  have key : ∀ (l2 : List (BusListener α ε)) (b : EventBusM α ε)
      (acc : List (Nat × Option ε)),
      (l2.foldl (fun acc l =>
        (acc.1.applyOps (l.run data).1, acc.2 ++ [(l.id, (l.run data).2)]))
        (b, acc)).2 = acc ++ (l2.map fun l => (l.id, (l.run data).2)) := by
    intro l2
    induction l2 with
    | nil => intro b acc; simp
    | cons l rest ih =>
      intro b acc
      rw [List.foldl_cons, List.map_cons, ih]
      simp
  have hlog : (bus.emit event data).2 = (ls.map fun l => (l.id, (l.run data).2)) := by
    unfold EventBusM.emit
    rw [hls]
    exact (key ls bus []).trans (by simp)
  exact ⟨hlog, by rw [hlog, List.length_map]⟩

/-- C10 witness: with two listeners, the first of which throws, both are
invoked in order and the log records the exception. -/
theorem c10_witness :
    (EventBusM.emit (α := Nat) (ε := String)
      ⟨[("evt", [⟨1, fun _ => ([], some "boom")⟩, ⟨2, fun _ => ([], none)⟩])]⟩
      "evt" 0).2 = [(1, some "boom"), (2, none)] := by
  have hx := (c10_emit_invokes_all_listeners
    ⟨[("evt", [⟨1, fun _ => ([], some "boom")⟩, ⟨2, fun _ => ([], none)⟩])]⟩
    "evt" 0 [⟨1, fun _ => ([], some "boom")⟩, ⟨2, fun _ => ([], none)⟩] rfl).1
  rw [hx]
  rfl

end MazeNav
